import Mathlib

/-!
# The LED program interpreter of `light_lang.hpp`

A shallow embedding of `LightLangCompiler::execute` (src/src/drak/light_lang.hpp)
and of the handler `on_socket_message` (src/src/main.cpp), followed by the
listener registry of `UDP::Server` (src/src/drak/udp.hpp) and the connection
flags of `Wifi::base_event_handler` (src/src/drak/wifi.hpp).

* A payload (`std::string code`) is a `List Char`; every character stands for
  one byte of the string.
* The three calls into the LED driver and the scheduler are recorded, in
  program order, as a list of `SinkOp`.
* `int` and `long` are 32 bits wide on the target.  Fields are at most seven
  characters wide, so no parsed value leaves the 32-bit range; the saturation
  of `strtol` is modelled all the same.  The loop counter `int i` is a `Nat`:
  a string in the 32-bit address space of the target is far shorter than
  `2^31 - 16` characters, so `i + 16` does not wrap.
-/

namespace LightLang

/-! ## Data model -/

/-- The constant `LED_COUNT` of light_lang.hpp. -/
def LED_COUNT : Int := 60

/-- The calls `execute` makes on the hardware: `vTaskDelay(pdMS_TO_TICKS(ms))`,
`led_strip_set_pixel(led_strip, index, r, g, b)` and `led_strip_refresh(led_strip)`.
The arguments are recorded as the `int` values of the argument expressions,
before any conversion to the parameter types of the driver. -/
inductive SinkOp where
  | suspend (ms : Int)
  | stage (index r g b : Int)
  | flush
  deriving DecidableEq, Repr

/-- The five `int` locals that one iteration of the `for` loop reads from a chunk. -/
structure Frame where
  led_index : Int
  r : Int
  g : Int
  b : Int
  delay : Int
  deriving DecidableEq, Repr

/-! ## `strtol(s, nullptr, 16)` -/

/-- The C-locale `isspace`: space, and the control characters 9 to 13. -/
def isspace (c : Char) : Bool :=
  c.toNat == 32 || (9 ≤ c.toNat && c.toNat ≤ 13)

/-- The value of a base-16 digit, `none` for every other character. -/
def hexDigitValue (c : Char) : Option Nat :=
  if 48 ≤ c.toNat ∧ c.toNat ≤ 57 then some (c.toNat - 48)
  else if 97 ≤ c.toNat ∧ c.toNat ≤ 102 then some (c.toNat - 87)
  else if 65 ≤ c.toNat ∧ c.toNat ≤ 70 then some (c.toNat - 55)
  else none

/-- Leading white space is skipped. -/
def skipSpaces : List Char → List Char
  | [] => []
  | c :: cs => if isspace c then skipSpaces cs else c :: cs

/-- With base 16 an initial `0x` or `0X` is skipped. -/
def skipHexMarker (s : List Char) : List Char :=
  match s with
  | c :: x :: cs => if c == '0' && (x == 'x' || x == 'X') then cs else s
  | _ => s

/-- Digits are accumulated up to the first character that is not a digit
(the terminating NUL of `c_str()` included). -/
def accumulate : Nat → List Char → Nat
  | acc, [] => acc
  | acc, c :: cs =>
    match hexDigitValue c with
    | some d => accumulate (acc * 16 + d) cs
    | none => acc

/-- `LONG_MAX` of the 32-bit target. -/
def LONG_MAX : Int := 2147483647

/-- `LONG_MIN` of the 32-bit target. -/
def LONG_MIN : Int := -2147483648

/-- The saturating sign application of `strtol`. -/
def applySign (neg : Bool) (magnitude : Nat) : Int :=
  if neg then
    if (magnitude : Int) > -LONG_MIN then LONG_MIN else -(magnitude : Int)
  else
    if (magnitude : Int) > LONG_MAX then LONG_MAX else (magnitude : Int)

/-- The C library call `strtol(s, nullptr, 16)`, after the C standard:
white space, an optional sign, an optional `0x`, then the longest run of
base-16 digits; zero when there is no digit. -/
def strtol16 (s : List Char) : Int :=
  match skipSpaces s with
  | [] => 0
  | c :: cs =>
    if c == '-' then applySign true (accumulate 0 (skipHexMarker cs))
    else if c == '+' then applySign false (accumulate 0 (skipHexMarker cs))
    else applySign false (accumulate 0 (skipHexMarker (c :: cs)))

/-- The call `code.substr(pos, n)` for `pos ≤ code.length()`. -/
def substr (code : List Char) (pos n : Nat) : List Char :=
  (code.drop pos).take n

/-! ## `LightLangCompiler::execute` -/

/-- Lines 39-47: the reads of one iteration.  `none` is the `continue` of
line 42, taken before the colour and the delay are read. -/
def readFrame (code : List Char) (i : Nat) : Option Frame :=
  let led_index := strtol16 (substr code i 3)
  if led_index < 0 ∨ led_index ≥ LED_COUNT then none
  else
    let r := strtol16 (substr code (i + 3) 2)
    let g := strtol16 (substr code (i + 5) 2)
    let b := strtol16 (substr code (i + 7) 2)
    let delay := strtol16 (substr code (i + 9) 7)
    some { led_index := led_index, r := r, g := g, b := b, delay := delay }

/-- Lines 49-52: the effects of one iteration that got past the `continue`. -/
def applyFrame (f : Frame) : List SinkOp :=
  (if f.delay > 0 then [SinkOp.suspend f.delay] else [])
    ++ [SinkOp.stage f.led_index f.r f.g f.b]

/-- The body of the `for` loop, lines 38-53. -/
def frameBody (code : List Char) (i : Nat) : List SinkOp :=
  match readFrame code i with
  | none => []
  | some f => applyFrame f

/-- The header `for (int i = 1; i + 16 <= code.length(); i += 16)`, collecting
what `body` yields at each `i`.  The first argument bounds the number of
iterations; `code.length` is always enough (`forLoop_fuel`). -/
def forLoop {α : Type} (code : List Char) (body : Nat → List α) : Nat → Nat → List α
  | 0, _ => []
  | fuel + 1, i =>
    if i + 16 ≤ code.length then body i ++ forLoop code body fuel (i + 16) else []

/-- The values of `i` at which the loop body runs. -/
def frameStarts (code : List Char) : List Nat :=
  forLoop code (fun i => [i]) code.length 1

/-- The frames that one pass reads completely, in order. -/
def framesRead (code : List Char) : List Frame :=
  forLoop code (fun i => (readFrame code i).toList) code.length 1

/-- One pass of the `do` body after line 35: the `for` loop, then
`led_strip_refresh`. -/
def onePass (code : List Char) : List SinkOp :=
  forLoop code (frameBody code) code.length 1 ++ [SinkOp.flush]

/-- Line 35: `code[0] == '1'`.  For the empty string `code[0]` is the
terminating NUL. -/
def loopFlag (code : List Char) : Bool :=
  code.getD 0 (Char.ofNat 0) == '1'

/-- What a run of `execute` has done: its hardware calls so far, and whether
the function has returned. -/
structure Outcome where
  ops : List SinkOp
  returned : Bool
  deriving DecidableEq, Repr

/-- `LightLangCompiler::execute`, followed for at most `passes` rounds of the
`do`/`while (loop)` statement. -/
def execute (code : List Char) : Nat → Outcome
  | 0 => { ops := [], returned := false }
  | passes + 1 =>
    let loop := loopFlag code
    let ops := onePass code
    if loop then
      let rest := execute code passes
      { ops := ops ++ rest.ops, returned := rest.returned }
    else
      { ops := ops, returned := true }

/-- `LightLangCompiler::terminate`: the body is empty. -/
def terminate : Unit := ()

/-- The handler of main.cpp: `llc.terminate(); llc.execute(data);`. -/
def on_socket_message (data : List Char) (passes : Nat) : Outcome :=
  let _ := terminate
  execute data passes

/-! ## The wire format, as the specification words it -/

/-- The upper-case form of the letters `a` to `f`; every other character is
left as it is.  Two payloads with the same image under `upperHex` differ only
in the case of letters `a`-`f` / `A`-`F`. -/
def upperHex (c : Char) : Char :=
  if c = 'a' then 'A'
  else if c = 'b' then 'B'
  else if c = 'c' then 'C'
  else if c = 'd' then 'D'
  else if c = 'e' then 'E'
  else if c = 'f' then 'F'
  else c

/-- Whether a character is one of the digits `0`-`9`, `a`-`f`, `A`-`F`. -/
def isHexDigit (c : Char) : Bool :=
  (hexDigitValue c).isSome

/-- The number a string of hex digits denotes, most significant digit first. -/
def hexValue (s : List Char) : Nat :=
  s.foldl (fun acc c => acc * 16 + (hexDigitValue c).getD 0) 0

/-- The complete 16-character chunks that follow the flag character: chunk `j`
occupies the positions `1 + 16 * j` to `16 + 16 * j`. -/
def specChunks (code : List Char) : List (List Char) :=
  (List.range ((code.length - 1) / 16)).map (fun j => substr code (1 + 16 * j) 16)

/-- The frame a chunk describes: led_index in 3 hex digits, red, green and blue
in 2 each, delay_ms in 7. -/
def specFrame (chunk : List Char) : Frame :=
  { led_index := (hexValue (substr chunk 0 3) : Int)
    r := (hexValue (substr chunk 3 2) : Int)
    g := (hexValue (substr chunk 5 2) : Int)
    b := (hexValue (substr chunk 7 2) : Int)
    delay := (hexValue (substr chunk 9 7) : Int) }

/-- A program: the loop flag and the frames in execution order. -/
structure Program where
  loop : Bool
  frames : List Frame
  deriving DecidableEq, Repr

/-- The digit character of a value below 16, letters in upper case. -/
def hexChar (d : Nat) : Char :=
  if d < 10 then Char.ofNat (48 + d) else Char.ofNat (55 + d)

/-- The last `width` hex digits of `n`, most significant first. -/
def toHexFixed : Nat → Nat → List Char
  | 0, _ => []
  | width + 1, n => toHexFixed width (n / 16) ++ [hexChar (n % 16)]

/-- The 16 characters of a frame: 3 + 2 + 2 + 2 + 7 hex digits. -/
def encodeFrame (f : Frame) : List Char :=
  toHexFixed 3 f.led_index.toNat ++ (toHexFixed 2 f.r.toNat ++ (toHexFixed 2 f.g.toNat
    ++ (toHexFixed 2 f.b.toNat ++ toHexFixed 7 f.delay.toNat)))

/-- The text of a program: `1` or `0` for the loop flag, then the frames. -/
def encode (p : Program) : List Char :=
  (if p.loop then '1' else '0') :: (p.frames.map encodeFrame).flatten

/-- The ranges of the wire format: led_index in 0..4095, each colour channel in
0..255, delay in 0..0xFFFFFFF. -/
def inWireRange (f : Frame) : Prop :=
  (0 ≤ f.led_index ∧ f.led_index < 4096) ∧ (0 ≤ f.r ∧ f.r < 256) ∧ (0 ≤ f.g ∧ f.g < 256)
    ∧ (0 ≤ f.b ∧ f.b < 256) ∧ (0 ≤ f.delay ∧ f.delay < 268435456)

instance (f : Frame) : Decidable (inWireRange f) := by
  unfold inWireRange
  infer_instance

/-- The program of the round-trip example of the specification: looping, one
frame that sets LED 0 to red without delay. -/
def redPixelProgram : Program :=
  { loop := true, frames := [{ led_index := 0, r := 255, g := 0, b := 0, delay := 0 }] }

/-- A program within the ranges of the wire format whose only frame addresses
LED 60, the first index past the strip. -/
def outOfRangeProgram : Program :=
  { loop := false, frames := [{ led_index := 60, r := 1, g := 2, b := 3, delay := 5 }] }

/-! ## The message handler inside the UDP receive loop -/

/-- The inner loop of `UDP::Server::receiver_loop` (udp.hpp, lines 85-107) in
the deployment of main.cpp, where `on_socket_message` is the only message
handler.  The list holds the `msg` strings in arrival order.  The handler is
called on the receiving task itself, so the next datagram is received only
once the handler has returned.  Each call of the handler is followed for at
most `passes` passes; `returned` says that every handler call has returned. -/
def receiver_loop : List (List Char) → Nat → Outcome
  | [], _ => { ops := [], returned := true }
  | msg :: later, passes =>
    let handled := on_socket_message msg passes
    if handled.returned then
      let rest := receiver_loop later passes
      { ops := handled.ops ++ rest.ops, returned := rest.returned }
    else
      handled

/-! ## The listener registry of `UDP::Server` (udp.hpp) -/

/-- The enumeration `UDP::Error`. -/
inductive UDP.Error where
  | FAILED_CREATE_SOCKET
  | FAILED_BIND_SOCKET
  | FAILED_START_TASK
  | LISTENER_ALREADY_PRESENT
  | TOO_MANY_LISTENERS
  | EVENT_SOCKET_ERROR
  deriving DecidableEq, Repr

/-- The constant `MAX_EVENT_HANDLER_COUNT` of udp.hpp. -/
def UDP.MAX_EVENT_HANDLER_COUNT : Nat := 20

/-- The two handler lists of a `UDP::Server`.  A handler is a function pointer,
here its address.  `Result<bool, Error>` is `Except UDP.Error Bool`. -/
structure UDP.Server where
  on_error_handlers : List Nat
  on_message_handlers : List Nat
  deriving DecidableEq, Repr

/-- The constructor leaves both lists empty. -/
def UDP.Server.new : UDP.Server :=
  { on_error_handlers := [], on_message_handlers := [] }

/-- `UDP::Server::add_on_error_listener`, lines 168-190.  The body runs with
`handler_mutex` taken, so calls do not interleave. -/
def UDP.Server.add_on_error_listener (s : UDP.Server) (listener : Nat) :
    Except UDP.Error Bool × UDP.Server :=
  if s.on_error_handlers.length ≥ UDP.MAX_EVENT_HANDLER_COUNT then
    (Except.error UDP.Error.TOO_MANY_LISTENERS, s)
  else
    let listener_present := s.on_error_handlers.contains listener
    if listener_present then
      (Except.error UDP.Error.LISTENER_ALREADY_PRESENT, s)
    else
      (Except.ok true, { s with on_error_handlers := s.on_error_handlers ++ [listener] })

/-- `UDP::Server::add_on_message_listener`, lines 192-214. -/
def UDP.Server.add_on_message_listener (s : UDP.Server) (listener : Nat) :
    Except UDP.Error Bool × UDP.Server :=
  if s.on_message_handlers.length ≥ UDP.MAX_EVENT_HANDLER_COUNT then
    (Except.error UDP.Error.TOO_MANY_LISTENERS, s)
  else
    let listener_present := s.on_message_handlers.contains listener
    if listener_present then
      (Except.error UDP.Error.LISTENER_ALREADY_PRESENT, s)
    else
      (Except.ok true, { s with on_message_handlers := s.on_message_handlers ++ [listener] })

/-- A call of one of the two registration functions. -/
inductive UDP.Call where
  | add_on_error_listener (listener : Nat)
  | add_on_message_listener (listener : Nat)
  deriving DecidableEq, Repr

/-- The server after one call. -/
def UDP.Server.call (s : UDP.Server) : UDP.Call → UDP.Server
  | UDP.Call.add_on_error_listener listener => (s.add_on_error_listener listener).2
  | UDP.Call.add_on_message_listener listener => (s.add_on_message_listener listener).2

/-- The server after a sequence of calls on a freshly constructed one. -/
def UDP.Server.after (calls : List UDP.Call) : UDP.Server :=
  calls.foldl UDP.Server.call UDP.Server.new

/-! ## The connection flags of `Wifi` (wifi.hpp) -/

/-- The three addresses kept by `IpInfo`. -/
structure IpInfo where
  ipv4_addr : Nat
  netmask_addr : Nat
  gateway_addr : Nat
  deriving DecidableEq, Repr

/-- An event as `Wifi::base_event_handler` tells them apart: the event base and,
within it, the `case` label that `event_id` matches.  `wifi_other` and
`ip_other` are the `default` labels, `other_base` any other event base. -/
inductive Wifi.Event where
  | WIFI_EVENT_STA_START
  | WIFI_EVENT_STA_STOP
  | WIFI_EVENT_STA_CONNECTED
  | WIFI_EVENT_STA_DISCONNECTED
  | wifi_other
  | IP_EVENT_STA_GOT_IP (ip_info : IpInfo)
  | IP_EVENT_STA_LOST_IP
  | ip_other
  | other_base
  deriving DecidableEq, Repr

/-- The seven handler vectors of `Wifi`. -/
inductive Wifi.HandlerList where
  | on_start
  | on_stop
  | on_connected
  | on_disconnected
  | on_connection_failed
  | on_got_ip
  | on_lost_ip
  deriving DecidableEq, Repr

/-- The state `base_event_handler` reads and writes: the file-level flags
`prop_is_connected` and `prop_is_conn_failed`, the member `ip_info`, and the
handler vectors.  A handler is a function pointer, here its address; 0 is the
null pointer. -/
structure Wifi.State where
  prop_is_connected : Bool
  prop_is_conn_failed : Bool
  ip_info : Option IpInfo
  on_start_handlers : List Nat
  on_stop_handlers : List Nat
  on_connected_handlers : List Nat
  on_disconnected_handlers : List Nat
  on_connection_failed_handlers : List Nat
  on_got_ip_handlers : List Nat
  on_lost_ip_handlers : List Nat
  deriving DecidableEq, Repr

/-- The loop `for (const auto &fn : handlers) if (fn) fn(this);`: the calls it
makes, each tagged with the vector it came from.  The callbacks themselves
are outside the model; they are taken not to write the two flags. -/
def Wifi.invoke (which : Wifi.HandlerList) (handlers : List Nat) :
    List (Wifi.HandlerList × Nat) :=
  (handlers.filter (fun fn => fn != 0)).map (fun fn => (which, fn))

/-- `Wifi::base_event_handler`, lines 114-189: the state after the event and
the callbacks invoked. -/
def Wifi.base_event_handler (s : Wifi.State) :
    Wifi.Event → Wifi.State × List (Wifi.HandlerList × Nat)
  | Wifi.Event.WIFI_EVENT_STA_START =>
    ({ s with prop_is_connected := false, prop_is_conn_failed := false },
      Wifi.invoke Wifi.HandlerList.on_start s.on_start_handlers)
  | Wifi.Event.WIFI_EVENT_STA_STOP =>
    ({ s with prop_is_connected := false, prop_is_conn_failed := false },
      Wifi.invoke Wifi.HandlerList.on_stop s.on_stop_handlers)
  | Wifi.Event.WIFI_EVENT_STA_CONNECTED =>
    ({ s with prop_is_connected := true, prop_is_conn_failed := false },
      Wifi.invoke Wifi.HandlerList.on_connected s.on_connected_handlers)
  | Wifi.Event.WIFI_EVENT_STA_DISCONNECTED =>
    if s.prop_is_connected && !s.prop_is_conn_failed then
      ({ s with prop_is_connected := false, prop_is_conn_failed := false },
        Wifi.invoke Wifi.HandlerList.on_disconnected s.on_disconnected_handlers)
    else
      ({ s with prop_is_connected := false, prop_is_conn_failed := true },
        Wifi.invoke Wifi.HandlerList.on_connection_failed s.on_connection_failed_handlers)
  | Wifi.Event.wifi_other => (s, [])
  | Wifi.Event.IP_EVENT_STA_GOT_IP ip_info =>
    ({ s with ip_info := some ip_info },
      Wifi.invoke Wifi.HandlerList.on_got_ip s.on_got_ip_handlers)
  | Wifi.Event.IP_EVENT_STA_LOST_IP =>
    ({ s with ip_info := none },
      Wifi.invoke Wifi.HandlerList.on_lost_ip s.on_lost_ip_handlers)
  | Wifi.Event.ip_other => (s, [])
  | Wifi.Event.other_base => (s, [])

/-- The state after a sequence of events, delivered one after the other. -/
def Wifi.State.after (s : Wifi.State) (events : List Wifi.Event) : Wifi.State :=
  events.foldl (fun st e => (Wifi.base_event_handler st e).1) s

/-- The deployment of main.cpp before `init()`: both flags false, no address,
and one listener registered in six of the seven vectors. -/
def Wifi.State.deployed : Wifi.State :=
  { prop_is_connected := false
    prop_is_conn_failed := false
    ip_info := none
    on_start_handlers := [1]
    on_stop_handlers := []
    on_connected_handlers := [2]
    on_disconnected_handlers := [3]
    on_connection_failed_handlers := [4]
    on_got_ip_handlers := [5]
    on_lost_ip_handlers := [6] }

/-! ## The `for` loop in closed form -/

theorem flatMap_range_congr {α : Type} (f g : Nat → List α) (n : Nat)
    (h : ∀ j, j < n → f j = g j) :
    (List.range n).flatMap f = (List.range n).flatMap g := by
  induction n with
  | zero => rfl
  | succ n ih =>
    rw [List.range_succ, List.flatMap_append, List.flatMap_append,
      ih (fun j hj => h j (Nat.lt_succ_of_lt hj))]
    simp [h n (Nat.lt_succ_self n)]

theorem flatMap_range_succ {α : Type} (f : Nat → List α) (n : Nat) :
    (List.range (n + 1)).flatMap f
      = f 0 ++ (List.range n).flatMap (fun j => f (j + 1)) := by
  rw [List.range_succ_eq_map]
  simp [List.flatMap_map, Function.comp_def]

/-- With enough iterations allowed, the loop runs its body at
`i, i + 16, i + 32, ...`, exactly `(code.length - i) / 16` times. -/
theorem forLoop_eq_range {α : Type} (code : List Char) (body : Nat → List α) :
    ∀ (fuel i : Nat), (code.length - i) / 16 ≤ fuel →
      forLoop code body fuel i
        = (List.range ((code.length - i) / 16)).flatMap (fun j => body (i + 16 * j)) := by
  intro fuel
  induction fuel with
  | zero =>
    intro i h
    have h0 : (code.length - i) / 16 = 0 := by omega
    simp [forLoop, h0]
  | succ fuel ih =>
    intro i h
    by_cases hc : i + 16 ≤ code.length
    · have hk : (code.length - i) / 16 = (code.length - (i + 16)) / 16 + 1 := by omega
      have hf : (code.length - (i + 16)) / 16 ≤ fuel := by omega
      rw [forLoop, if_pos hc, ih (i + 16) hf, hk, flatMap_range_succ]
      simp only [Nat.mul_zero, Nat.add_zero]
      congr 1
      apply flatMap_range_congr
      intro j _
      congr 1
      omega
    · have h0 : (code.length - i) / 16 = 0 := by omega
      rw [forLoop, if_neg hc, h0]
      rfl

/-- The bound `code.length` on the iterations is never reached: any larger
bound gives the same run of the loop. -/
theorem forLoop_fuel {α : Type} (code : List Char) (body : Nat → List α) (extra : Nat) :
    forLoop code body (code.length + extra) 1 = forLoop code body code.length 1 := by
  rw [forLoop_eq_range code body (code.length + extra) 1 (by omega),
    forLoop_eq_range code body code.length 1 (by omega)]

theorem onePass_eq (code : List Char) :
    onePass code
      = (List.range ((code.length - 1) / 16)).flatMap (fun j => frameBody code (1 + 16 * j))
          ++ [SinkOp.flush] := by
  rw [onePass, forLoop_eq_range code _ code.length 1 (by omega)]

theorem framesRead_eq (code : List Char) :
    framesRead code
      = (List.range ((code.length - 1) / 16)).flatMap
          (fun j => (readFrame code (1 + 16 * j)).toList) := by
  rw [framesRead, forLoop_eq_range code _ code.length 1 (by omega)]

theorem frameStarts_eq (code : List Char) :
    frameStarts code = (List.range ((code.length - 1) / 16)).map (fun j => 1 + 16 * j) := by
  rw [frameStarts, forLoop_eq_range code _ code.length 1 (by omega)]
  induction (code.length - 1) / 16 with
  | zero => rfl
  | succ n ih => simp [List.range_succ, List.flatMap_append, ih]

/-- Every element the loop yields comes from its body at some offset inside
the payload. -/
theorem mem_forLoop {α : Type} (code : List Char) (body : Nat → List α) (x : α) :
    ∀ (fuel i : Nat), x ∈ forLoop code body fuel i → ∃ j, j + 16 ≤ code.length ∧ x ∈ body j := by
  intro fuel
  induction fuel with
  | zero => intro i h; simp [forLoop] at h
  | succ fuel ih =>
    intro i h
    rw [forLoop] at h
    split at h
    · rcases List.mem_append.mp h with h1 | h2
      · exact ⟨i, by assumption, h1⟩
      · exact ih (i + 16) h2
    · simp at h

/-! ## Substrings -/

theorem substr_length_le (code : List Char) (pos n : Nat) : (substr code pos n).length ≤ n := by
  simp [substr, List.length_take]

/-- A field of a chunk is the same field of the payload. -/
theorem substr_substr (code : List Char) (i off w : Nat) (h : off + w ≤ 16) :
    substr (substr code i 16) off w = substr code (i + off) w := by
  simp only [substr, List.drop_take, List.take_take, List.drop_drop]
  have : min w (16 - off) = w := by omega
  rw [this, Nat.add_comm]

theorem readFrame_chunk (code : List Char) (i : Nat) :
    readFrame code i = readFrame (substr code i 16) 0 := by
  simp only [readFrame, Nat.zero_add]
  rw [substr_substr code i 3 2 (by omega), substr_substr code i 5 2 (by omega),
    substr_substr code i 7 2 (by omega), substr_substr code i 9 7 (by omega)]
  have h0 := substr_substr code i 0 3 (by omega)
  rw [Nat.add_zero] at h0
  rw [h0]

theorem frameBody_chunk (code : List Char) (i : Nat) :
    frameBody code i = frameBody (substr code i 16) 0 := by
  rw [frameBody, frameBody, readFrame_chunk]

/-! ## What one pass can do -/

theorem readFrame_none (code : List Char) (i : Nat)
    (h : strtol16 (substr code i 3) < 0 ∨ LED_COUNT ≤ strtol16 (substr code i 3)) :
    readFrame code i = none := by
  simp only [readFrame]
  rw [if_pos]
  exact h

theorem readFrame_some (code : List Char) (i : Nat)
    (h : ¬ (strtol16 (substr code i 3) < 0 ∨ LED_COUNT ≤ strtol16 (substr code i 3))) :
    readFrame code i = some
      { led_index := strtol16 (substr code i 3)
        r := strtol16 (substr code (i + 3) 2)
        g := strtol16 (substr code (i + 5) 2)
        b := strtol16 (substr code (i + 7) 2)
        delay := strtol16 (substr code (i + 9) 7) } := by
  simp only [readFrame]
  rw [if_neg]
  exact h

theorem readFrame_fields (code : List Char) (i : Nat) (f : Frame)
    (h : readFrame code i = some f) :
    (0 ≤ f.led_index ∧ f.led_index < LED_COUNT)
      ∧ f.led_index = strtol16 (substr code i 3)
      ∧ f.r = strtol16 (substr code (i + 3) 2)
      ∧ f.g = strtol16 (substr code (i + 5) 2)
      ∧ f.b = strtol16 (substr code (i + 7) 2)
      ∧ f.delay = strtol16 (substr code (i + 9) 7) := by
  by_cases hg : strtol16 (substr code i 3) < 0 ∨ LED_COUNT ≤ strtol16 (substr code i 3)
  · rw [readFrame_none code i hg] at h
    cases h
  · rw [readFrame_some code i hg] at h
    cases h
    refine ⟨⟨?_, ?_⟩, rfl, rfl, rfl, rfl, rfl⟩
    · simp only
      omega
    · simp only
      omega

theorem mem_applyFrame (f : Frame) (x : SinkOp) (h : x ∈ applyFrame f) :
    (x = SinkOp.suspend f.delay ∧ 0 < f.delay) ∨ x = SinkOp.stage f.led_index f.r f.g f.b := by
  simp only [applyFrame] at h
  rcases List.mem_append.mp h with h1 | h2
  · left
    split at h1
    · exact ⟨by simpa using h1, by assumption⟩
    · simp at h1
  · right
    simpa using h2

theorem mem_frameBody (code : List Char) (i : Nat) (x : SinkOp) (h : x ∈ frameBody code i) :
    ∃ f, readFrame code i = some f ∧ x ∈ applyFrame f := by
  simp only [frameBody] at h
  cases hr : readFrame code i with
  | none => rw [hr] at h; simp at h
  | some f => rw [hr] at h; exact ⟨f, rfl, h⟩

theorem mem_onePass (code : List Char) (x : SinkOp) (h : x ∈ onePass code) :
    x = SinkOp.flush ∨ ∃ i f, readFrame code i = some f ∧ x ∈ applyFrame f := by
  simp only [onePass] at h
  rcases List.mem_append.mp h with h1 | h2
  · right
    obtain ⟨i, _, hi⟩ := mem_forLoop code _ x _ _ h1
    obtain ⟨f, hf, hx⟩ := mem_frameBody code i x hi
    exact ⟨i, f, hf, hx⟩
  · left
    simpa using h2

theorem mem_execute (code : List Char) (x : SinkOp) :
    ∀ passes, x ∈ (execute code passes).ops → x ∈ onePass code := by
  intro passes
  induction passes with
  | zero => intro h; simp [execute] at h
  | succ n ih =>
    intro h
    simp only [execute] at h
    split at h
    · rcases List.mem_append.mp h with h1 | h2
      · exact h1
      · exact ih h2
    · exact h

theorem flush_not_mem_forLoop (code : List Char) (fuel i : Nat) :
    SinkOp.flush ∉ forLoop code (frameBody code) fuel i := by
  intro h
  obtain ⟨j, _, hj⟩ := mem_forLoop code _ _ _ _ h
  obtain ⟨f, _, hx⟩ := mem_frameBody code j _ hj
  rcases mem_applyFrame f _ hx with h1 | h2
  · cases h1.1
  · cases h2

theorem onePass_count_flush (code : List Char) :
    (onePass code).count SinkOp.flush = 1 := by
  simp only [onePass, List.count_append]
  rw [List.count_eq_zero_of_not_mem (flush_not_mem_forLoop code _ _)]
  rfl

theorem onePass_getLast (code : List Char) :
    (onePass code).getLast? = some SinkOp.flush := by
  simp [onePass]

theorem execute_not_looping (code : List Char) (h : loopFlag code = false) (passes : Nat) :
    execute code (passes + 1) = { ops := onePass code, returned := true } := by
  simp [execute, h]

theorem onePass_short (code : List Char) (h : code.length ≤ 16) :
    onePass code = [SinkOp.flush] := by
  rw [onePass_eq]
  have h0 : (code.length - 1) / 16 = 0 := by omega
  rw [h0]
  rfl

theorem flatMap_filter_ne {α : Type} (f : Nat → List α) (j : Nat) (h : f j = []) (l : List Nat) :
    (l.filter (fun m => decide (m ≠ j))).flatMap f = l.flatMap f := by
  induction l with
  | nil => rfl
  | cons a l ih =>
    by_cases ha : a = j
    · subst ha
      simpa [List.filter_cons, h] using ih
    · simpa [List.filter_cons, ha] using ih

theorem execute_congr (a b : List Char) (hflag : loopFlag a = loopFlag b)
    (hpass : onePass a = onePass b) : ∀ passes, execute a passes = execute b passes := by
  intro passes
  induction passes with
  | zero => rfl
  | succ n ih => simp only [execute, hflag, hpass, ih]

theorem substr_append_left (p r : List Char) (i n : Nat) (h : i + n ≤ p.length) :
    substr (p ++ r) i n = substr p i n := by
  simp only [substr]
  rw [List.drop_append_of_le_length (by omega), List.take_append_of_le_length]
  simp only [List.length_drop]
  omega

/-! ## Bounds on what `strtol` returns for a short field -/

theorem hexDigitValue_lt (c : Char) (d : Nat) (h : hexDigitValue c = some d) : d < 16 := by
  unfold hexDigitValue at h
  split at h
  · cases h; omega
  · split at h
    · cases h; omega
    · split at h
      · cases h; omega
      · cases h

theorem accumulate_lt : ∀ (s : List Char) (acc : Nat),
    accumulate acc s < (acc + 1) * 16 ^ s.length := by
  intro s
  induction s with
  | nil => intro acc; simp [accumulate]
  | cons c cs ih =>
    intro acc
    have hpos : 0 < 16 ^ cs.length := by positivity
    simp only [accumulate, List.length_cons, pow_succ]
    cases hd : hexDigitValue c with
    | none =>
      simp only
      nlinarith
    | some d =>
      simp only
      have hlt := hexDigitValue_lt c d hd
      have h1 := ih (acc * 16 + d)
      have h2 : (acc * 16 + d + 1) * 16 ^ cs.length ≤ (acc + 1) * 16 * 16 ^ cs.length :=
        Nat.mul_le_mul_right _ (by omega)
      calc accumulate (acc * 16 + d) cs < (acc * 16 + d + 1) * 16 ^ cs.length := h1
        _ ≤ (acc + 1) * 16 * 16 ^ cs.length := h2
        _ = (acc + 1) * (16 ^ cs.length * 16) := by ring

theorem skipSpaces_length_le : ∀ s : List Char, (skipSpaces s).length ≤ s.length := by
  intro s
  induction s with
  | nil => simp [skipSpaces]
  | cons c cs ih =>
    simp only [skipSpaces]
    split
    · simp only [List.length_cons]; omega
    · exact Nat.le_refl _

theorem skipSpaces_subset : ∀ (s : List Char) (x : Char), x ∈ skipSpaces s → x ∈ s := by
  intro s
  induction s with
  | nil => intro x h; simp [skipSpaces] at h
  | cons c cs ih =>
    intro x h
    simp only [skipSpaces] at h
    split at h
    · exact List.mem_cons_of_mem _ (ih x h)
    · exact h

theorem skipHexMarker_length_le (s : List Char) : (skipHexMarker s).length ≤ s.length := by
  unfold skipHexMarker
  split
  · split
    · simp only [List.length_cons]; omega
    · exact Nat.le_refl _
  · exact Nat.le_refl _

theorem accumulate_marker_lt (s : List Char) (n : Nat) (h : s.length ≤ n) :
    accumulate 0 (skipHexMarker s) < 16 ^ n := by
  have h1 := accumulate_lt (skipHexMarker s) 0
  have h2 := skipHexMarker_length_le s
  have h3 : 16 ^ (skipHexMarker s).length ≤ 16 ^ n :=
    Nat.pow_le_pow_right (by decide) (by omega)
  omega

theorem applySign_false_bounds (m : Nat) :
    0 ≤ applySign false m ∧ applySign false m ≤ (m : Int) := by
  have hval : applySign false m
      = if (m : Int) > 2147483647 then 2147483647 else (m : Int) := rfl
  rw [hval]
  split <;> constructor <;> omega

theorem applySign_true_bounds (m : Nat) :
    -(m : Int) ≤ applySign true m ∧ applySign true m ≤ 0 := by
  have hval : applySign true m
      = if (m : Int) > 2147483648 then -2147483648 else -(m : Int) := rfl
  rw [hval]
  split <;> constructor <;> omega

/-- A field of at most `n + 1` characters parses to a value strictly between
`-16^n` and `16^(n+1)`: a minus sign costs one of the characters. -/
theorem strtol16_bounds (s : List Char) (n : Nat) (hlen : s.length ≤ n + 1) :
    -((16 ^ n : Nat) : Int) < strtol16 s ∧ strtol16 s < ((16 ^ (n + 1) : Nat) : Int) := by
  have hpos : 0 < 16 ^ n := by positivity
  have hmono : 16 ^ n ≤ 16 ^ (n + 1) := Nat.pow_le_pow_right (by decide) (by omega)
  have hsk := skipSpaces_length_le s
  unfold strtol16
  cases hs : skipSpaces s with
  | nil => simp only; omega
  | cons c cs =>
    rw [hs] at hsk
    simp only [List.length_cons] at hsk
    have hcs := accumulate_marker_lt cs n (by omega)
    have hccs := accumulate_marker_lt (c :: cs) (n + 1) (by simp only [List.length_cons]; omega)
    simp only
    split
    · have hb := applySign_true_bounds (accumulate 0 (skipHexMarker cs))
      omega
    · split
      · have hb := applySign_false_bounds (accumulate 0 (skipHexMarker cs))
        omega
      · have hb := applySign_false_bounds (accumulate 0 (skipHexMarker (c :: cs)))
        omega

/-- Without a minus sign in the field the parsed value is not negative. -/
theorem strtol16_nonneg (s : List Char) (h : '-' ∉ s) : 0 ≤ strtol16 s := by
  unfold strtol16
  cases hs : skipSpaces s with
  | nil => simp
  | cons c cs =>
    simp only
    have hc : c ∈ s := skipSpaces_subset s c (by rw [hs]; exact List.mem_cons_self _ _)
    have hne : c ≠ '-' := fun hEq => h (hEq ▸ hc)
    rw [if_neg (by simpa using hne)]
    split
    · exact (applySign_false_bounds _).1
    · exact (applySign_false_bounds _).1

theorem substr_subset (code : List Char) (pos n : Nat) (x : Char) (h : x ∈ substr code pos n) :
    x ∈ code :=
  List.mem_of_mem_drop (List.mem_of_mem_take h)

theorem field2_bounds (code : List Char) (pos : Nat) :
    -15 ≤ strtol16 (substr code pos 2) ∧ strtol16 (substr code pos 2) ≤ 255 := by
  have h := strtol16_bounds (substr code pos 2) 1 (substr_length_le code pos 2)
  norm_num at h
  omega

theorem field7_bounds (code : List Char) (pos : Nat) :
    -16777215 ≤ strtol16 (substr code pos 7) ∧ strtol16 (substr code pos 7) ≤ 268435455 := by
  have h := strtol16_bounds (substr code pos 7) 6 (substr_length_le code pos 7)
  norm_num at h
  omega

theorem field_nonneg (code : List Char) (pos n : Nat) (h : '-' ∉ code) :
    0 ≤ strtol16 (substr code pos n) :=
  strtol16_nonneg _ (fun hm => h (substr_subset code pos n _ hm))

theorem mem_framesRead (code : List Char) (f : Frame) (h : f ∈ framesRead code) :
    ∃ i, readFrame code i = some f := by
  obtain ⟨i, _, hi⟩ := mem_forLoop code _ f _ _ h
  exact ⟨i, by simpa [Option.mem_toList] using hi⟩

/-! ## The case of hex letters -/

theorem upperHex_cases (c : Char) :
    upperHex c = c ∨ (c = 'a' ∧ upperHex c = 'A') ∨ (c = 'b' ∧ upperHex c = 'B')
      ∨ (c = 'c' ∧ upperHex c = 'C') ∨ (c = 'd' ∧ upperHex c = 'D')
      ∨ (c = 'e' ∧ upperHex c = 'E') ∨ (c = 'f' ∧ upperHex c = 'F') := by
  unfold upperHex
  split_ifs <;> simp_all

theorem isspace_upperHex (c : Char) : isspace (upperHex c) = isspace c := by
  rcases upperHex_cases c with h | ⟨h, h2⟩ | ⟨h, h2⟩ | ⟨h, h2⟩ | ⟨h, h2⟩ | ⟨h, h2⟩ | ⟨h, h2⟩
  · rw [h]
  all_goals (rw [h2, h]; decide)

theorem hexDigitValue_upperHex (c : Char) : hexDigitValue (upperHex c) = hexDigitValue c := by
  rcases upperHex_cases c with h | ⟨h, h2⟩ | ⟨h, h2⟩ | ⟨h, h2⟩ | ⟨h, h2⟩ | ⟨h, h2⟩ | ⟨h, h2⟩
  · rw [h]
  all_goals (rw [h2, h]; decide)

/-- The characters `strtol` and the loop flag compare against are not hex
letters: a comparison with one of them is blind to the case change. -/
theorem beq_upperHex (c k : Char)
    (hk : k ∉ ['a', 'b', 'c', 'd', 'e', 'f', 'A', 'B', 'C', 'D', 'E', 'F']) :
    (upperHex c == k) = (c == k) := by
  simp only [List.mem_cons, List.mem_singleton, List.not_mem_nil, not_or, or_false] at hk
  obtain ⟨ha, hb, hc, hd, he, hf, hA, hB, hC, hD, hE, hF⟩ := hk
  rcases upperHex_cases c with h | ⟨h, h2⟩ | ⟨h, h2⟩ | ⟨h, h2⟩ | ⟨h, h2⟩ | ⟨h, h2⟩ | ⟨h, h2⟩
  · rw [h]
  · rw [h2, h, beq_eq_false_iff_ne.mpr (Ne.symm hA), beq_eq_false_iff_ne.mpr (Ne.symm ha)]
  · rw [h2, h, beq_eq_false_iff_ne.mpr (Ne.symm hB), beq_eq_false_iff_ne.mpr (Ne.symm hb)]
  · rw [h2, h, beq_eq_false_iff_ne.mpr (Ne.symm hC), beq_eq_false_iff_ne.mpr (Ne.symm hc)]
  · rw [h2, h, beq_eq_false_iff_ne.mpr (Ne.symm hD), beq_eq_false_iff_ne.mpr (Ne.symm hd)]
  · rw [h2, h, beq_eq_false_iff_ne.mpr (Ne.symm hE), beq_eq_false_iff_ne.mpr (Ne.symm he)]
  · rw [h2, h, beq_eq_false_iff_ne.mpr (Ne.symm hF), beq_eq_false_iff_ne.mpr (Ne.symm hf)]

theorem skipSpaces_map_upperHex : ∀ s : List Char,
    skipSpaces (s.map upperHex) = (skipSpaces s).map upperHex := by
  intro s
  induction s with
  | nil => rfl
  | cons c cs ih =>
    simp only [List.map_cons, skipSpaces, isspace_upperHex]
    split
    · exact ih
    · rfl

theorem skipHexMarker_map_upperHex (s : List Char) :
    skipHexMarker (s.map upperHex) = (skipHexMarker s).map upperHex := by
  match s with
  | [] => rfl
  | [_] => rfl
  | c :: x :: cs =>
    simp only [List.map_cons, skipHexMarker, beq_upperHex c '0' (by decide),
      beq_upperHex x 'x' (by decide), beq_upperHex x 'X' (by decide)]
    split <;> simp

theorem accumulate_map_upperHex : ∀ (s : List Char) (acc : Nat),
    accumulate acc (s.map upperHex) = accumulate acc s := by
  intro s
  induction s with
  | nil => intro acc; rfl
  | cons c cs ih =>
    intro acc
    simp only [List.map_cons, accumulate, hexDigitValue_upperHex]
    cases hexDigitValue c with
    | none => rfl
    | some d => exact ih _

theorem strtol16_map_upperHex (s : List Char) :
    strtol16 (s.map upperHex) = strtol16 s := by
  unfold strtol16
  rw [skipSpaces_map_upperHex]
  cases skipSpaces s with
  | nil => rfl
  | cons c cs =>
    simp only [List.map_cons, beq_upperHex c '-' (by decide), beq_upperHex c '+' (by decide)]
    rw [skipHexMarker_map_upperHex, accumulate_map_upperHex]
    have h2 := skipHexMarker_map_upperHex (c :: cs)
    simp only [List.map_cons] at h2
    rw [h2, accumulate_map_upperHex]

theorem substr_map_upperHex (code : List Char) (pos n : Nat) :
    substr (code.map upperHex) pos n = (substr code pos n).map upperHex := by
  simp only [substr, List.map_take, List.map_drop]

theorem readFrame_map_upperHex (code : List Char) (i : Nat) :
    readFrame (code.map upperHex) i = readFrame code i := by
  simp only [readFrame, substr_map_upperHex, strtol16_map_upperHex]

theorem loopFlag_map_upperHex (code : List Char) :
    loopFlag (code.map upperHex) = loopFlag code := by
  cases code with
  | nil => rfl
  | cons c cs =>
    simp only [loopFlag, List.map_cons, List.getD_cons_zero]
    exact beq_upperHex c '1' (by decide)

theorem framesRead_map_upperHex (code : List Char) :
    framesRead (code.map upperHex) = framesRead code := by
  rw [framesRead_eq, framesRead_eq, List.length_map]
  apply flatMap_range_congr
  intro j _
  rw [readFrame_map_upperHex]

theorem onePass_map_upperHex (code : List Char) :
    onePass (code.map upperHex) = onePass code := by
  rw [onePass_eq, onePass_eq, List.length_map]
  congr 1
  apply flatMap_range_congr
  intro j _
  simp only [frameBody, readFrame_map_upperHex]

/-! ## Fields that hold hex digits only -/

theorem isHexDigit_iff (c : Char) :
    isHexDigit c = true ↔ ∃ d, hexDigitValue c = some d := by
  simp [isHexDigit, Option.isSome_iff_exists]

theorem isHexDigit_toNat (c : Char) (h : isHexDigit c = true) :
    (48 ≤ c.toNat ∧ c.toNat ≤ 57) ∨ (97 ≤ c.toNat ∧ c.toNat ≤ 102)
      ∨ (65 ≤ c.toNat ∧ c.toNat ≤ 70) := by
  obtain ⟨d, hd⟩ := (isHexDigit_iff c).mp h
  unfold hexDigitValue at hd
  split at hd
  · left; assumption
  · split at hd
    · right; left; assumption
    · split at hd
      · right; right; assumption
      · cases hd

theorem isHexDigit_not_space (c : Char) (h : isHexDigit c = true) : isspace c = false := by
  have hr := isHexDigit_toNat c h
  simp only [isspace, Bool.or_eq_false_iff, beq_eq_false_iff_ne, Bool.and_eq_false_iff,
    decide_eq_false_iff_not]
  omega

theorem isHexDigit_ne (c k : Char) (h : isHexDigit c = true) (hk : isHexDigit k = false) :
    (c == k) = false := by
  rw [beq_eq_false_iff_ne]
  intro hEq
  rw [hEq, hk] at h
  cases h

theorem accumulate_hex : ∀ (s : List Char) (acc : Nat),
    (∀ c, c ∈ s → isHexDigit c = true) →
      accumulate acc s = s.foldl (fun a c => a * 16 + (hexDigitValue c).getD 0) acc := by
  intro s
  induction s with
  | nil => intro acc _; rfl
  | cons c cs ih =>
    intro acc h
    obtain ⟨d, hd⟩ := (isHexDigit_iff c).mp (h c (List.mem_cons_self _ _))
    simp only [accumulate, hd, List.foldl_cons, Option.getD_some]
    exact ih _ (fun x hx => h x (List.mem_cons_of_mem _ hx))

theorem skipHexMarker_hex (s : List Char) (h : ∀ c, c ∈ s → isHexDigit c = true) :
    skipHexMarker s = s := by
  match s with
  | [] => rfl
  | [_] => rfl
  | c :: x :: cs =>
    have hx : isHexDigit x = true := h x (by simp)
    simp only [skipHexMarker, isHexDigit_ne x 'x' hx (by decide),
      isHexDigit_ne x 'X' hx (by decide)]
    simp

/-- On a field of at most seven hex digits `strtol` returns the number the
digits denote. -/
theorem strtol16_hex (s : List Char) (h : ∀ c, c ∈ s → isHexDigit c = true)
    (hlen : s.length ≤ 7) : strtol16 s = (hexValue s : Int) := by
  cases s with
  | nil => rfl
  | cons c cs =>
    have hc : isHexDigit c = true := h c (List.mem_cons_self _ _)
    have hlt := accumulate_marker_lt (c :: cs) 7 hlen
    have hb : accumulate 0 (skipHexMarker (c :: cs)) ≤ 2147483647 := by
      norm_num at hlt
      omega
    have hsign : applySign false (accumulate 0 (skipHexMarker (c :: cs)))
        = (accumulate 0 (skipHexMarker (c :: cs)) : Int) := by
      have hval : applySign false (accumulate 0 (skipHexMarker (c :: cs)))
          = if ((accumulate 0 (skipHexMarker (c :: cs)) : Nat) : Int) > 2147483647
            then 2147483647 else ((accumulate 0 (skipHexMarker (c :: cs)) : Nat) : Int) := rfl
      rw [hval, if_neg (by omega)]
    simp only [strtol16, skipSpaces, isHexDigit_not_space c hc, Bool.false_eq_true, if_false,
      isHexDigit_ne c '-' hc (by decide), isHexDigit_ne c '+' hc (by decide)]
    rw [hsign, skipHexMarker_hex _ h, accumulate_hex _ _ h]
    rfl

theorem substr_hex (chunk : List Char) (h : ∀ c, c ∈ chunk → isHexDigit c = true)
    (pos n : Nat) : ∀ c, c ∈ substr chunk pos n → isHexDigit c = true :=
  fun c hc => h c (substr_subset chunk pos n c hc)

/-- A chunk of hex digits whose led_index is below `LED_COUNT` is read as the
frame it describes. -/
theorem readFrame_hex_chunk (chunk : List Char) (h : ∀ c, c ∈ chunk → isHexDigit c = true)
    (hidx : (specFrame chunk).led_index < LED_COUNT) :
    readFrame chunk 0 = some (specFrame chunk) := by
  have h3 := strtol16_hex (substr chunk 0 3) (substr_hex chunk h 0 3)
    (Nat.le_trans (substr_length_le chunk 0 3) (by decide))
  have hr := strtol16_hex (substr chunk 3 2) (substr_hex chunk h 3 2)
    (Nat.le_trans (substr_length_le chunk 3 2) (by decide))
  have hg := strtol16_hex (substr chunk 5 2) (substr_hex chunk h 5 2)
    (Nat.le_trans (substr_length_le chunk 5 2) (by decide))
  have hb := strtol16_hex (substr chunk 7 2) (substr_hex chunk h 7 2)
    (Nat.le_trans (substr_length_le chunk 7 2) (by decide))
  have hd := strtol16_hex (substr chunk 9 7) (substr_hex chunk h 9 7)
    (Nat.le_trans (substr_length_le chunk 9 7) (by decide))
  simp only [specFrame] at hidx
  have hguard : ¬ (strtol16 (substr chunk 0 3) < 0 ∨ LED_COUNT ≤ strtol16 (substr chunk 0 3)) := by
    rw [h3]
    omega
  rw [readFrame_some chunk 0 hguard]
  simp only [Nat.zero_add, h3, hr, hg, hb, hd, specFrame]

/-! ## Encoding a program -/

theorem hexDigitValue_hexChar (d : Nat) (h : d < 16) : hexDigitValue (hexChar d) = some d := by
  interval_cases d <;> rfl

theorem toHexFixed_length : ∀ (w n : Nat), (toHexFixed w n).length = w := by
  intro w
  induction w with
  | zero => intro n; rfl
  | succ w ih => intro n; simp [toHexFixed, ih]

theorem toHexFixed_hex : ∀ (w n : Nat) (c : Char), c ∈ toHexFixed w n → isHexDigit c = true := by
  intro w
  induction w with
  | zero => intro n c h; simp [toHexFixed] at h
  | succ w ih =>
    intro n c h
    simp only [toHexFixed, List.mem_append, List.mem_singleton] at h
    rcases h with h | h
    · exact ih _ c h
    · rw [h, isHexDigit, hexDigitValue_hexChar _ (Nat.mod_lt _ (by decide))]
      rfl

theorem hexValue_append_singleton (l : List Char) (c : Char) :
    hexValue (l ++ [c]) = hexValue l * 16 + (hexDigitValue c).getD 0 := by
  simp [hexValue, List.foldl_append]

theorem hexValue_toHexFixed : ∀ (w n : Nat), hexValue (toHexFixed w n) = n % 16 ^ w := by
  intro w
  induction w with
  | zero => intro n; simp [toHexFixed, hexValue, Nat.mod_one]
  | succ w ih =>
    intro n
    rw [toHexFixed, hexValue_append_singleton, ih,
      hexDigitValue_hexChar _ (Nat.mod_lt _ (by decide)), Option.getD_some, pow_succ,
      Nat.mul_comm (16 ^ w) 16, Nat.mod_mul]
    omega

/-- A value that fits the width is read back by `strtol` from its fixed-width
hex digits. -/
theorem strtol16_toHexFixed (w n : Nat) (hw : w ≤ 7) (hn : n < 16 ^ w) :
    strtol16 (toHexFixed w n) = (n : Int) := by
  rw [strtol16_hex _ (toHexFixed_hex w n) (by rw [toHexFixed_length]; exact hw),
    hexValue_toHexFixed, Nat.mod_eq_of_lt hn]

theorem substr_mid (pre mid post : List Char) (p n : Nat) (hp : pre.length = p)
    (hn : mid.length = n) : substr (pre ++ (mid ++ post)) p n = mid := by
  simp only [substr]
  rw [List.drop_left' hp, List.take_left' hn]

theorem encodeFrame_length (f : Frame) : (encodeFrame f).length = 16 := by
  simp [encodeFrame, toHexFixed_length]

/-- A frame in the ranges of the wire format is read back from its 16
characters when its led_index is below `LED_COUNT`, and skipped otherwise. -/
theorem readFrame_encodeFrame (f : Frame) (h : inWireRange f) :
    readFrame (encodeFrame f) 0 = if f.led_index < LED_COUNT then some f else none := by
  obtain ⟨⟨hi0, hi1⟩, ⟨hr0, hr1⟩, ⟨hg0, hg1⟩, ⟨hb0, hb1⟩, ⟨hd0, hd1⟩⟩ := h
  have e3 : substr (encodeFrame f) 0 3 = toHexFixed 3 f.led_index.toNat := by
    have := substr_mid [] (toHexFixed 3 f.led_index.toNat)
      (toHexFixed 2 f.r.toNat ++ (toHexFixed 2 f.g.toNat
        ++ (toHexFixed 2 f.b.toNat ++ toHexFixed 7 f.delay.toNat))) 0 3 rfl
      (toHexFixed_length _ _)
    simpa [encodeFrame] using this
  have er : substr (encodeFrame f) 3 2 = toHexFixed 2 f.r.toNat := by
    have := substr_mid (toHexFixed 3 f.led_index.toNat) (toHexFixed 2 f.r.toNat)
      (toHexFixed 2 f.g.toNat ++ (toHexFixed 2 f.b.toNat ++ toHexFixed 7 f.delay.toNat)) 3 2
      (toHexFixed_length _ _) (toHexFixed_length _ _)
    simpa [encodeFrame] using this
  have eg : substr (encodeFrame f) 5 2 = toHexFixed 2 f.g.toNat := by
    have := substr_mid (toHexFixed 3 f.led_index.toNat ++ toHexFixed 2 f.r.toNat)
      (toHexFixed 2 f.g.toNat) (toHexFixed 2 f.b.toNat ++ toHexFixed 7 f.delay.toNat) 5 2
      (by simp [toHexFixed_length]) (toHexFixed_length _ _)
    simpa [encodeFrame] using this
  have eb : substr (encodeFrame f) 7 2 = toHexFixed 2 f.b.toNat := by
    have := substr_mid
      (toHexFixed 3 f.led_index.toNat ++ (toHexFixed 2 f.r.toNat ++ toHexFixed 2 f.g.toNat))
      (toHexFixed 2 f.b.toNat) (toHexFixed 7 f.delay.toNat) 7 2
      (by simp [toHexFixed_length]) (toHexFixed_length _ _)
    simpa [encodeFrame] using this
  have ed : substr (encodeFrame f) 9 7 = toHexFixed 7 f.delay.toNat := by
    have := substr_mid
      (toHexFixed 3 f.led_index.toNat ++ (toHexFixed 2 f.r.toNat ++ (toHexFixed 2 f.g.toNat
        ++ toHexFixed 2 f.b.toNat)))
      (toHexFixed 7 f.delay.toNat) [] 9 7
      (by simp [toHexFixed_length]) (toHexFixed_length _ _)
    simpa [encodeFrame] using this
  have v3 : strtol16 (toHexFixed 3 f.led_index.toNat) = f.led_index := by
    rw [strtol16_toHexFixed 3 _ (by decide) (by norm_num; omega)]
    omega
  have vr : strtol16 (toHexFixed 2 f.r.toNat) = f.r := by
    rw [strtol16_toHexFixed 2 _ (by decide) (by norm_num; omega)]
    omega
  have vg : strtol16 (toHexFixed 2 f.g.toNat) = f.g := by
    rw [strtol16_toHexFixed 2 _ (by decide) (by norm_num; omega)]
    omega
  have vb : strtol16 (toHexFixed 2 f.b.toNat) = f.b := by
    rw [strtol16_toHexFixed 2 _ (by decide) (by norm_num; omega)]
    omega
  have vd : strtol16 (toHexFixed 7 f.delay.toNat) = f.delay := by
    rw [strtol16_toHexFixed 7 _ (by decide) (by norm_num; omega)]
    omega
  by_cases hlt : f.led_index < LED_COUNT
  · rw [if_pos hlt, readFrame_some (encodeFrame f) 0 (by rw [e3, v3]; omega)]
    simp only [Nat.zero_add, e3, er, eg, eb, ed, v3, vr, vg, vb, vd]
  · rw [if_neg hlt, readFrame_none (encodeFrame f) 0 (by rw [e3, v3]; omega)]

/-- The loop over a payload made of a head of `pre.length` characters and
16-character chunks visits the chunks one by one. -/
theorem forLoop_chunks {α : Type} (F : List Char → List α) :
    ∀ (chunks : List (List Char)), (∀ ch, ch ∈ chunks → ch.length = 16) →
      ∀ (pre : List Char) (fuel : Nat), chunks.length ≤ fuel →
        forLoop (pre ++ chunks.flatten)
            (fun i => F (substr (pre ++ chunks.flatten) i 16)) fuel pre.length
          = chunks.flatMap F := by
  intro chunks
  induction chunks with
  | nil =>
    intro _ pre fuel _
    cases fuel with
    | zero => rfl
    | succ fuel =>
      rw [forLoop, if_neg (by simp)]
      rfl
  | cons ch chs ih =>
    intro hlen pre fuel hfuel
    have hch : ch.length = 16 := hlen ch (List.mem_cons_self _ _)
    cases fuel with
    | zero => simp at hfuel
    | succ fuel =>
      have hcode : pre ++ (ch :: chs).flatten = (pre ++ ch) ++ chs.flatten := by
        simp [List.flatten]
      have hcond : pre.length + 16 ≤ (pre ++ (ch :: chs).flatten).length := by
        simp [List.flatten, hch]
      have hsub : substr (pre ++ (ch :: chs).flatten) pre.length 16 = ch := by
        have := substr_mid pre ch chs.flatten pre.length 16 rfl hch
        simpa [List.flatten] using this
      have hnext : pre.length + 16 = (pre ++ ch).length := by simp [hch]
      rw [forLoop, if_pos hcond, hsub, hcode, hnext,
        ih (fun x hx => hlen x (List.mem_cons_of_mem _ hx)) (pre ++ ch) fuel
          (by simp only [List.length_cons] at hfuel; omega)]
      simp [List.flatMap_cons]

theorem encode_length (p : Program) : (encode p).length = 1 + 16 * p.frames.length := by
  have hsum : ∀ frames : List Frame,
      ((frames.map encodeFrame).flatten).length = 16 * frames.length := by
    intro frames
    induction frames with
    | nil => rfl
    | cons f fs ih =>
      simp only [List.map_cons, List.flatten, List.length_append, encodeFrame_length,
        List.length_cons]
      have ih2 : (List.flatten (List.map encodeFrame fs)).length = 16 * fs.length := ih
      omega
  simp only [encode, List.length_cons, hsum]
  omega

theorem flatMap_readFrame_encodeFrame : ∀ (frames : List Frame),
    (∀ f, f ∈ frames → inWireRange f) →
      (frames.map encodeFrame).flatMap (fun ch => (readFrame ch 0).toList)
        = frames.filter (fun f => decide (f.led_index < LED_COUNT)) := by
  intro frames
  induction frames with
  | nil => intro _; rfl
  | cons f fs ih =>
    intro h
    have hf := readFrame_encodeFrame f (h f (List.mem_cons_self _ _))
    have ih2 := ih (fun x hx => h x (List.mem_cons_of_mem _ hx))
    simp only [List.map_cons, List.flatMap_cons, hf, ih2, List.filter_cons]
    by_cases hlt : f.led_index < LED_COUNT
    · simp [hlt]
    · simp [hlt]

/-! ## A looping payload -/

/-- With the loop flag set, `passes` rounds of the `do` statement are `passes`
copies of the pass, and `execute` has not returned after them. -/
theorem execute_looping (code : List Char) (h : loopFlag code = true) :
    ∀ passes, execute code passes
      = { ops := (List.replicate passes (onePass code)).flatten, returned := false } := by
  intro passes
  induction passes with
  | zero => rfl
  | succ n ih =>
    simp only [execute, h, if_true, ih, List.replicate_succ, List.flatten_cons]

theorem receiver_loop_blocked (first : List Char) (later : List (List Char))
    (h : loopFlag first = true) (passes : Nat) :
    receiver_loop (first :: later) passes = execute first passes := by
  simp only [receiver_loop, on_socket_message, execute_looping first h passes]
  rfl

/-! ## The listener registry -/

theorem add_on_message_listener_cases (s : UDP.Server) (listener : Nat) :
    ((s.add_on_message_listener listener).1 = Except.ok true
        ↔ s.on_message_handlers.length < 20 ∧ listener ∉ s.on_message_handlers)
      ∧ (s.on_message_handlers.length < 20 → listener ∉ s.on_message_handlers →
          s.add_on_message_listener listener
            = (Except.ok true,
                { s with on_message_handlers := s.on_message_handlers ++ [listener] }))
      ∧ (20 ≤ s.on_message_handlers.length →
          s.add_on_message_listener listener
            = (Except.error UDP.Error.TOO_MANY_LISTENERS, s))
      ∧ (s.on_message_handlers.length < 20 → listener ∈ s.on_message_handlers →
          s.add_on_message_listener listener
            = (Except.error UDP.Error.LISTENER_ALREADY_PRESENT, s)) := by
  unfold UDP.Server.add_on_message_listener UDP.MAX_EVENT_HANDLER_COUNT
  by_cases hlen : s.on_message_handlers.length ≥ 20
  · rw [if_pos hlen]
    refine ⟨?_, ?_, ?_, ?_⟩
    · constructor
      · intro h; cases h
      · intro h; omega
    · intro h; omega
    · intro _; rfl
    · intro h; omega
  · rw [if_neg hlen]
    by_cases hmem : listener ∈ s.on_message_handlers
    · have hc : s.on_message_handlers.contains listener = true := by simpa using hmem
      simp only [hc, if_true]
      refine ⟨?_, ?_, ?_, ?_⟩
      · constructor
        · intro h; cases h
        · intro h; exact absurd hmem h.2
      · intro _ h; exact absurd hmem h
      · intro h; omega
      · intro _ _; trivial
    · have hc : s.on_message_handlers.contains listener = false := by simpa using hmem
      simp only [hc, Bool.false_eq_true, if_false]
      refine ⟨?_, ?_, ?_, ?_⟩
      · constructor
        · intro _; exact ⟨by omega, hmem⟩
        · intro _; trivial
      · intro _ _; trivial
      · intro h; omega
      · intro _ h; exact absurd h hmem

theorem add_on_error_listener_cases (s : UDP.Server) (listener : Nat) :
    ((s.add_on_error_listener listener).1 = Except.ok true
        ↔ s.on_error_handlers.length < 20 ∧ listener ∉ s.on_error_handlers)
      ∧ (s.on_error_handlers.length < 20 → listener ∉ s.on_error_handlers →
          s.add_on_error_listener listener
            = (Except.ok true,
                { s with on_error_handlers := s.on_error_handlers ++ [listener] }))
      ∧ (20 ≤ s.on_error_handlers.length →
          s.add_on_error_listener listener
            = (Except.error UDP.Error.TOO_MANY_LISTENERS, s))
      ∧ (s.on_error_handlers.length < 20 → listener ∈ s.on_error_handlers →
          s.add_on_error_listener listener
            = (Except.error UDP.Error.LISTENER_ALREADY_PRESENT, s)) := by
  unfold UDP.Server.add_on_error_listener UDP.MAX_EVENT_HANDLER_COUNT
  by_cases hlen : s.on_error_handlers.length ≥ 20
  · rw [if_pos hlen]
    refine ⟨?_, ?_, ?_, ?_⟩
    · constructor
      · intro h; cases h
      · intro h; omega
    · intro h; omega
    · intro _; rfl
    · intro h; omega
  · rw [if_neg hlen]
    by_cases hmem : listener ∈ s.on_error_handlers
    · have hc : s.on_error_handlers.contains listener = true := by simpa using hmem
      simp only [hc, if_true]
      refine ⟨?_, ?_, ?_, ?_⟩
      · constructor
        · intro h; cases h
        · intro h; exact absurd hmem h.2
      · intro _ h; exact absurd hmem h
      · intro h; omega
      · intro _ _; trivial
    · have hc : s.on_error_handlers.contains listener = false := by simpa using hmem
      simp only [hc, Bool.false_eq_true, if_false]
      refine ⟨?_, ?_, ?_, ?_⟩
      · constructor
        · intro _; exact ⟨by omega, hmem⟩
        · intro _; trivial
      · intro _ _; trivial
      · intro h; omega
      · intro _ h; exact absurd h hmem

theorem call_keeps_registry_invariant (s : UDP.Server) (c : UDP.Call)
    (h : (s.on_message_handlers.length ≤ 20 ∧ s.on_message_handlers.Nodup)
      ∧ (s.on_error_handlers.length ≤ 20 ∧ s.on_error_handlers.Nodup)) :
    ((s.call c).on_message_handlers.length ≤ 20 ∧ (s.call c).on_message_handlers.Nodup)
      ∧ ((s.call c).on_error_handlers.length ≤ 20 ∧ (s.call c).on_error_handlers.Nodup) := by
  obtain ⟨⟨hm1, hm2⟩, ⟨he1, he2⟩⟩ := h
  cases c with
  | add_on_error_listener listener =>
    simp only [UDP.Server.call]
    obtain ⟨_, hok, hfull, hdup⟩ := add_on_error_listener_cases s listener
    by_cases hlen : 20 ≤ s.on_error_handlers.length
    · rw [hfull hlen]
      exact ⟨⟨hm1, hm2⟩, ⟨he1, he2⟩⟩
    · by_cases hmem : listener ∈ s.on_error_handlers
      · rw [hdup (by omega) hmem]
        exact ⟨⟨hm1, hm2⟩, ⟨he1, he2⟩⟩
      · rw [hok (by omega) hmem]
        refine ⟨⟨hm1, hm2⟩, ⟨?_, ?_⟩⟩
        · simp only [List.length_append, List.length_singleton]
          omega
        · exact List.Nodup.append he2 (List.nodup_singleton _)
            (by simpa [List.disjoint_singleton] using hmem)
  | add_on_message_listener listener =>
    simp only [UDP.Server.call]
    obtain ⟨_, hok, hfull, hdup⟩ := add_on_message_listener_cases s listener
    by_cases hlen : 20 ≤ s.on_message_handlers.length
    · rw [hfull hlen]
      exact ⟨⟨hm1, hm2⟩, ⟨he1, he2⟩⟩
    · by_cases hmem : listener ∈ s.on_message_handlers
      · rw [hdup (by omega) hmem]
        exact ⟨⟨hm1, hm2⟩, ⟨he1, he2⟩⟩
      · rw [hok (by omega) hmem]
        refine ⟨⟨?_, ?_⟩, ⟨he1, he2⟩⟩
        · simp only [List.length_append, List.length_singleton]
          omega
        · exact List.Nodup.append hm2 (List.nodup_singleton _)
            (by simpa [List.disjoint_singleton] using hmem)

theorem foldl_call_keeps_registry_invariant : ∀ (calls : List UDP.Call) (s : UDP.Server),
    ((s.on_message_handlers.length ≤ 20 ∧ s.on_message_handlers.Nodup)
      ∧ (s.on_error_handlers.length ≤ 20 ∧ s.on_error_handlers.Nodup)) →
    (((calls.foldl UDP.Server.call s).on_message_handlers.length ≤ 20
        ∧ (calls.foldl UDP.Server.call s).on_message_handlers.Nodup)
      ∧ ((calls.foldl UDP.Server.call s).on_error_handlers.length ≤ 20
        ∧ (calls.foldl UDP.Server.call s).on_error_handlers.Nodup)) := by
  intro calls
  induction calls with
  | nil => intro s h; exact h
  | cons c cs ih =>
    intro s h
    exact ih (s.call c) (call_keeps_registry_invariant s c h)

/-! ## The connection flags -/

theorem base_event_handler_flags (s : Wifi.State) (e : Wifi.Event)
    (h : ¬ (s.prop_is_connected = true ∧ s.prop_is_conn_failed = true)) :
    ¬ ((Wifi.base_event_handler s e).1.prop_is_connected = true
      ∧ (Wifi.base_event_handler s e).1.prop_is_conn_failed = true) := by
  cases e with
  | WIFI_EVENT_STA_DISCONNECTED =>
    simp only [Wifi.base_event_handler]
    split <;> simp
  | WIFI_EVENT_STA_START => simp [Wifi.base_event_handler]
  | WIFI_EVENT_STA_STOP => simp [Wifi.base_event_handler]
  | WIFI_EVENT_STA_CONNECTED => simp [Wifi.base_event_handler]
  | wifi_other => exact h
  | IP_EVENT_STA_GOT_IP _ => exact h
  | IP_EVENT_STA_LOST_IP => exact h
  | ip_other => exact h
  | other_base => exact h

theorem foldl_base_event_handler_flags : ∀ (events : List Wifi.Event) (s : Wifi.State),
    ¬ (s.prop_is_connected = true ∧ s.prop_is_conn_failed = true) →
    ¬ ((s.after events).prop_is_connected = true
      ∧ (s.after events).prop_is_conn_failed = true) := by
  intro events
  induction events with
  | nil => intro s h; exact h
  | cons e es ih =>
    intro s h
    exact ih _ (base_event_handler_flags s e h)

theorem disconnected_cases (s : Wifi.State) :
    ((s.prop_is_connected = true ∧ s.prop_is_conn_failed = false) →
        Wifi.base_event_handler s Wifi.Event.WIFI_EVENT_STA_DISCONNECTED
          = ({ s with prop_is_connected := false, prop_is_conn_failed := false },
              Wifi.invoke Wifi.HandlerList.on_disconnected s.on_disconnected_handlers))
      ∧ (¬ (s.prop_is_connected = true ∧ s.prop_is_conn_failed = false) →
        Wifi.base_event_handler s Wifi.Event.WIFI_EVENT_STA_DISCONNECTED
          = ({ s with prop_is_connected := false, prop_is_conn_failed := true },
              Wifi.invoke Wifi.HandlerList.on_connection_failed
                s.on_connection_failed_handlers)) := by
  constructor
  · intro h
    simp [Wifi.base_event_handler, h.1, h.2]
  · intro h
    have hcond : (s.prop_is_connected && !s.prop_is_conn_failed) = false := by
      cases hc : s.prop_is_connected <;> cases hf : s.prop_is_conn_failed <;> simp_all
    simp [Wifi.base_event_handler, hcond]

/-! ## The claims -/

/-- C2, as stated, fails.  In the payload `003CFF00000000005` the only chunk has
led_index `0x03C = 60 = LED_COUNT` and delay 5; the pass makes no stage call for
it, but it does not suspend for the 5 ms either: the flush is all it does. -/
theorem out_of_range_frame_delay_not_observed :
    strtol16 (substr "003CFF00000000005".toList 1 3) = 60
      ∧ strtol16 (substr "003CFF00000000005".toList 10 7) = 5
      ∧ (execute "003CFF00000000005".toList 1).ops = [SinkOp.flush]
      ∧ SinkOp.suspend 5 ∉ (execute "003CFF00000000005".toList 1).ops := by
  decide

/-- C2, amended.  A chunk whose led_index is at least `LED_COUNT` is skipped
whole: the loop body yields nothing for it (no stage and no suspend), so the
pass consists of what the other chunks yield, in order, followed by the one
flush that ends it. -/
theorem out_of_range_frame_skipped_whole (code : List Char) (j : Nat)
    (_hj : j < (code.length - 1) / 16)
    (hidx : LED_COUNT ≤ strtol16 (substr code (1 + 16 * j) 3)) :
    frameBody code (1 + 16 * j) = []
      ∧ onePass code
          = ((List.range ((code.length - 1) / 16)).filter (fun m => decide (m ≠ j))).flatMap
              (fun m => frameBody code (1 + 16 * m)) ++ [SinkOp.flush]
      ∧ (onePass code).getLast? = some SinkOp.flush := by
  have hbody : frameBody code (1 + 16 * j) = [] := by
    simp only [frameBody, readFrame_none code (1 + 16 * j) (Or.inr hidx)]
  refine ⟨hbody, ?_, onePass_getLast code⟩
  rw [onePass_eq, flatMap_filter_ne (fun m => frameBody code (1 + 16 * m)) j hbody]

theorem out_of_range_frame_skipped_whole_witness :
    frameBody "003CFF00000000005".toList (1 + 16 * 0) = []
      ∧ onePass "003CFF00000000005".toList
          = ((List.range (("003CFF00000000005".toList.length - 1) / 16)).filter
              (fun m => decide (m ≠ 0))).flatMap
              (fun m => frameBody "003CFF00000000005".toList (1 + 16 * m)) ++ [SinkOp.flush]
      ∧ (onePass "003CFF00000000005".toList).getLast? = some SinkOp.flush :=
  out_of_range_frame_skipped_whole "003CFF00000000005".toList 0 (by decide) (by decide)

/-- C3, as stated, fails.  On the empty payload the handler reports no error
and does touch the hardware: `execute` returns after one flush. -/
theorem empty_payload_is_flushed :
    (on_socket_message [] 1).returned = true
      ∧ (on_socket_message [] 1).ops = [SinkOp.flush]
      ∧ (on_socket_message [] 1).ops ≠ [] := by
  decide

/-- C3, amended.  Handling the empty payload signals no error: the loop flag
is read as false, no stage and no suspend is made, exactly one flush is made,
and `execute` returns after that single pass. -/
theorem empty_payload_one_flush (passes : Nat) :
    loopFlag [] = false
      ∧ framesRead [] = []
      ∧ on_socket_message [] (passes + 1) = { ops := [SinkOp.flush], returned := true } := by
  refine ⟨by decide, by decide, ?_⟩
  simp only [on_socket_message]
  rw [execute_not_looping [] (by decide) passes, onePass_short [] (by decide)]

/-- C4.  A payload of 1 to 16 characters whose first character is not `1`
makes `execute` perform exactly one flush, no stage and no suspend, and
return. -/
theorem short_non_looping_payload (code : List Char)
    (hlen1 : 1 ≤ code.length) (hlen16 : code.length ≤ 16) (hflag : code.head? ≠ some '1')
    (passes : Nat) :
    execute code (passes + 1) = { ops := [SinkOp.flush], returned := true } := by
  have hloop : loopFlag code = false := by
    cases code with
    | nil => simp at hlen1
    | cons c rest =>
      simp only [List.head?_cons, ne_eq, Option.some.injEq] at hflag
      simp [loopFlag, hflag]
  rw [execute_not_looping code hloop passes, onePass_short code hlen16]

theorem short_non_looping_payload_witness :
    execute "0123456789abcdef".toList (0 + 1) = { ops := [SinkOp.flush], returned := true } :=
  short_non_looping_payload "0123456789abcdef".toList (by decide) (by decide) (by decide) 0

/-- C5.  For a non-empty payload the loop flag is true exactly when character 0
is `1`; and when character 0 is anything else, `execute` returns after a single
pass, whose operations contain exactly one flush, the last of them. -/
theorem loop_flag_and_completion (c : Char) (rest : List Char) :
    (loopFlag (c :: rest) = true ↔ c = '1')
      ∧ (c ≠ '1' → ∀ passes,
          (execute (c :: rest) (passes + 1)).returned = true
            ∧ (execute (c :: rest) (passes + 1)).ops = onePass (c :: rest)
            ∧ (execute (c :: rest) (passes + 1)).ops.count SinkOp.flush = 1
            ∧ (execute (c :: rest) (passes + 1)).ops.getLast? = some SinkOp.flush) := by
  have hiff : loopFlag (c :: rest) = true ↔ c = '1' := by simp [loopFlag]
  refine ⟨hiff, ?_⟩
  intro hc passes
  have hloop : loopFlag (c :: rest) = false := by
    cases h : loopFlag (c :: rest) with
    | false => rfl
    | true => exact absurd (hiff.mp h) hc
  rw [execute_not_looping _ hloop passes]
  exact ⟨rfl, rfl, onePass_count_flush _, onePass_getLast _⟩

theorem loop_flag_and_completion_witness :
    (loopFlag ('0' :: "000FF00000000000A".toList) = true ↔ '0' = '1')
      ∧ (execute ('0' :: "000FF00000000000A".toList) (0 + 1)).returned = true
      ∧ (execute ('0' :: "000FF00000000000A".toList) (0 + 1)).ops
          = onePass ('0' :: "000FF00000000000A".toList)
      ∧ (execute ('0' :: "000FF00000000000A".toList) (0 + 1)).ops.count SinkOp.flush = 1
      ∧ (execute ('0' :: "000FF00000000000A".toList) (0 + 1)).ops.getLast?
          = some SinkOp.flush :=
  ⟨(loop_flag_and_completion '0' "000FF00000000000A".toList).1,
    (loop_flag_and_completion '0' "000FF00000000000A".toList).2 (by decide) 0⟩

/-- C6.  Let `p` be a flag character followed by `k` complete 16-character
chunks and `r` a string of fewer than 16 characters.  On `p ++ r` the loop body
runs exactly `k = (length - 1) / 16` times, at the offsets of the chunks of `p`,
and `execute` performs the same operations on `p ++ r` as on `p`. -/
theorem trailing_remainder_discarded (p r : List Char) (k : Nat)
    (hp : p.length = 1 + 16 * k) (hr : r.length < 16) :
    k = ((p ++ r).length - 1) / 16
      ∧ frameStarts (p ++ r) = (List.range k).map (fun j => 1 + 16 * j)
      ∧ (frameStarts (p ++ r)).length = k
      ∧ framesRead (p ++ r) = framesRead p
      ∧ onePass (p ++ r) = onePass p
      ∧ ∀ passes, execute (p ++ r) passes = execute p passes := by
  have hk : ((p ++ r).length - 1) / 16 = k := by
    rw [List.length_append]
    omega
  have hk2 : (p.length - 1) / 16 = k := by omega
  have hread : ∀ j, j < k → readFrame (p ++ r) (1 + 16 * j) = readFrame p (1 + 16 * j) := by
    intro j hjk
    rw [readFrame_chunk (p ++ r), readFrame_chunk p, substr_append_left p r _ 16 (by omega)]
  have hpass : onePass (p ++ r) = onePass p := by
    rw [onePass_eq, onePass_eq, hk, hk2]
    congr 1
    apply flatMap_range_congr
    intro j hjk
    simp only [frameBody, hread j hjk]
  have hflag : loopFlag (p ++ r) = loopFlag p := by
    cases p with
    | nil => simp at hp; omega
    | cons c rest => simp [loopFlag]
  refine ⟨hk.symm, ?_, ?_, ?_, hpass, execute_congr _ _ hflag hpass⟩
  · rw [frameStarts_eq, hk]
  · rw [frameStarts_eq, hk]
    simp
  · rw [framesRead_eq, framesRead_eq, hk, hk2]
    apply flatMap_range_congr
    intro j hjk
    simp only [hread j hjk]

theorem trailing_remainder_discarded_witness :
    1 = (("1000FF00000000000".toList ++ "0123".toList).length - 1) / 16
      ∧ frameStarts ("1000FF00000000000".toList ++ "0123".toList)
          = (List.range 1).map (fun j => 1 + 16 * j)
      ∧ (frameStarts ("1000FF00000000000".toList ++ "0123".toList)).length = 1
      ∧ framesRead ("1000FF00000000000".toList ++ "0123".toList)
          = framesRead "1000FF00000000000".toList
      ∧ onePass ("1000FF00000000000".toList ++ "0123".toList)
          = onePass "1000FF00000000000".toList
      ∧ ∀ passes, execute ("1000FF00000000000".toList ++ "0123".toList) passes
          = execute "1000FF00000000000".toList passes :=
  trailing_remainder_discarded "1000FF00000000000".toList "0123".toList 1 (by decide) (by decide)

/-- C8.  Whatever the payload, and however many passes are run, every stage
call made by `execute` has an index `i` with `0 ≤ i < LED_COUNT = 60`. -/
theorem stage_index_in_bounds (code : List Char) (passes : Nat) (index r g b : Int)
    (h : SinkOp.stage index r g b ∈ (execute code passes).ops) :
    0 ≤ index ∧ index < LED_COUNT := by
  have h1 := mem_execute code _ passes h
  rcases mem_onePass code _ h1 with hflush | ⟨i, f, hf, hx⟩
  · cases hflush
  · have hfields := (readFrame_fields code i f hf).1
    rcases mem_applyFrame f _ hx with hs | hs
    · cases hs.1
    · cases hs
      exact hfields

theorem stage_index_in_bounds_witness :
    SinkOp.stage 59 255 0 0 ∈ (execute "003BFF00000000000-01".toList 1).ops
      ∧ (0 : Int) ≤ 59 ∧ (59 : Int) < LED_COUNT :=
  ⟨by decide,
    stage_index_in_bounds "003BFF00000000000-01".toList 1 59 255 0 0 (by decide)⟩

/-- C9, as stated, fails.  In the payload `0000-1000000000000` the red field is
`-1`; `strtol` reads a sign, so the stage call gets red = -1, outside 0..255.
In `0000FF0000-000001` the delay field is `-000001` and the delay read is -1. -/
theorem signed_field_leaves_wire_range :
    SinkOp.stage 0 (-1) 0 0 ∈ (execute "0000-1000000000000".toList 1).ops
      ∧ ¬ (0 ≤ (-1 : Int) ∧ (-1 : Int) ≤ 255)
      ∧ framesRead "0000FF0000-000001".toList
          = [{ led_index := 0, r := 255, g := 0, b := 0, delay := -1 }] := by
  decide

/-- C9, amended.  For every payload, each colour channel passed to a stage call
lies in -15..255, each suspend lasts between 1 and 0xFFFFFFF ms, and each delay
read lies in -0xFFFFFF..0xFFFFFFF; when the payload holds no minus sign, the
channels and the delays are not negative, so they lie in 0..255 and
0..0xFFFFFFF. -/
theorem decoded_field_ranges (code : List Char) (passes : Nat) :
    (∀ index r g b, SinkOp.stage index r g b ∈ (execute code passes).ops →
        (-15 ≤ r ∧ r ≤ 255) ∧ (-15 ≤ g ∧ g ≤ 255) ∧ (-15 ≤ b ∧ b ≤ 255)
          ∧ ('-' ∉ code → 0 ≤ r ∧ 0 ≤ g ∧ 0 ≤ b))
      ∧ (∀ ms, SinkOp.suspend ms ∈ (execute code passes).ops → 1 ≤ ms ∧ ms ≤ 0xFFFFFFF)
      ∧ (∀ f, f ∈ framesRead code →
          -0xFFFFFF ≤ f.delay ∧ f.delay ≤ 0xFFFFFFF ∧ ('-' ∉ code → 0 ≤ f.delay)) := by
  refine ⟨?_, ?_, ?_⟩
  · intro index r g b h
    rcases mem_onePass code _ (mem_execute code _ passes h) with hflush | ⟨i, f, hf, hx⟩
    · cases hflush
    · obtain ⟨_, _, hr, hg, hb, _⟩ := readFrame_fields code i f hf
      rcases mem_applyFrame f _ hx with hs | hs
      · cases hs.1
      · cases hs
        rw [hr, hg, hb]
        exact ⟨field2_bounds code _, field2_bounds code _, field2_bounds code _,
          fun hm => ⟨field_nonneg code _ 2 hm, field_nonneg code _ 2 hm,
            field_nonneg code _ 2 hm⟩⟩
  · intro ms h
    rcases mem_onePass code _ (mem_execute code _ passes h) with hflush | ⟨i, f, hf, hx⟩
    · cases hflush
    · obtain ⟨_, _, _, _, _, hd⟩ := readFrame_fields code i f hf
      rcases mem_applyFrame f _ hx with hs | hs
      · have hEq : ms = f.delay := by cases hs.1; rfl
        have hpos := hs.2
        have hb := field7_bounds code (i + 9)
        rw [← hd] at hb
        omega
      · cases hs
  · intro f hfm
    obtain ⟨i, hf⟩ := mem_framesRead code f hfm
    obtain ⟨_, _, _, _, _, hd⟩ := readFrame_fields code i f hf
    have hb := field7_bounds code (i + 9)
    rw [← hd] at hb
    refine ⟨by omega, by omega, fun hm => ?_⟩
    rw [hd]
    exact field_nonneg code _ 7 hm

theorem decoded_field_ranges_witness :
    ((-15 ≤ (-15 : Int) ∧ (-15 : Int) ≤ 255) ∧ (-15 ≤ (255 : Int) ∧ (255 : Int) ≤ 255)
        ∧ (-15 ≤ (10 : Int) ∧ (10 : Int) ≤ 255))
      ∧ (1 ≤ (268435455 : Int) ∧ (268435455 : Int) ≤ 0xFFFFFFF)
      ∧ (0 ≤ (255 : Int) ∧ 0 ≤ (0 : Int) ∧ 0 ≤ (16 : Int)) :=
  ⟨⟨((decoded_field_ranges "0001-FFF0aFFFFFFF".toList 1).1 1 (-15) 255 10 (by decide)).1,
      ((decoded_field_ranges "0001-FFF0aFFFFFFF".toList 1).1 1 (-15) 255 10 (by decide)).2.1,
      ((decoded_field_ranges "0001-FFF0aFFFFFFF".toList 1).1 1 (-15) 255 10 (by decide)).2.2.1⟩,
    (decoded_field_ranges "0001-FFF0aFFFFFFF".toList 1).2.1 268435455 (by decide),
    ((decoded_field_ranges "0002FF00100000000".toList 1).1 2 255 0 16 (by decide)).2.2.2
      (by decide)⟩

/-- C10.  Two payloads that differ only in the case of hex letters (at each
position the characters are equal, or the lower- and upper-case form of the
same letter `a`-`f`) decode to the same loop flag and the same frames, and
`execute` performs the same operations on both. -/
theorem hex_case_insensitive (a b : List Char)
    (h : a.map upperHex = b.map upperHex) :
    loopFlag a = loopFlag b
      ∧ framesRead a = framesRead b
      ∧ ∀ passes, execute a passes = execute b passes := by
  have hflag : loopFlag a = loopFlag b := by
    rw [← loopFlag_map_upperHex a, ← loopFlag_map_upperHex b, h]
  have hpass : onePass a = onePass b := by
    rw [← onePass_map_upperHex a, ← onePass_map_upperHex b, h]
  refine ⟨hflag, ?_, execute_congr a b hflag hpass⟩
  rw [← framesRead_map_upperHex a, ← framesRead_map_upperHex b, h]

theorem hex_case_insensitive_witness :
    loopFlag "100aff00c0000bBcDe9".toList = loopFlag "100AFf00C0000BbCde9".toList
      ∧ framesRead "100aff00c0000bBcDe9".toList = framesRead "100AFf00C0000BbCde9".toList
      ∧ ∀ passes, execute "100aff00c0000bBcDe9".toList passes
          = execute "100AFf00C0000BbCde9".toList passes :=
  hex_case_insensitive "100aff00c0000bBcDe9".toList "100AFf00C0000BbCde9".toList (by decide)

/-- C7.  When every complete chunk of the payload consists of hex digits and has
a led_index below `LED_COUNT`, one pass performs, for each chunk in payload
order, a suspend of delay_ms if and only if delay_ms > 0, immediately followed
by the stage of (red, green, blue) at led_index; and after the last chunk one
flush, the only flush of the pass. -/
theorem one_pass_operation_order (code : List Char)
    (hhex : ∀ chunk, chunk ∈ specChunks code → ∀ c, c ∈ chunk → isHexDigit c = true)
    (hidx : ∀ chunk, chunk ∈ specChunks code → (specFrame chunk).led_index < LED_COUNT) :
    onePass code
        = ((specChunks code).map specFrame).flatMap
            (fun f => (if f.delay > 0 then [SinkOp.suspend f.delay] else [])
              ++ [SinkOp.stage f.led_index f.r f.g f.b])
          ++ [SinkOp.flush]
      ∧ (onePass code).count SinkOp.flush = 1 := by
  refine ⟨?_, onePass_count_flush code⟩
  rw [onePass_eq, specChunks, List.map_map, List.flatMap_map]
  congr 1
  apply flatMap_range_congr
  intro j hj
  have hmem : substr code (1 + 16 * j) 16 ∈ specChunks code := by
    simp only [specChunks, List.mem_map, List.mem_range]
    exact ⟨j, hj, rfl⟩
  rw [frameBody_chunk, frameBody,
    readFrame_hex_chunk _ (hhex _ hmem) (hidx _ hmem)]
  rfl

theorem one_pass_operation_order_witness :
    onePass "1005FF0000000000003B010203000000a".toList
        = ((specChunks "1005FF0000000000003B010203000000a".toList).map specFrame).flatMap
            (fun f => (if f.delay > 0 then [SinkOp.suspend f.delay] else [])
              ++ [SinkOp.stage f.led_index f.r f.g f.b])
          ++ [SinkOp.flush]
      ∧ (onePass "1005FF0000000000003B010203000000a".toList).count SinkOp.flush = 1 :=
  one_pass_operation_order "1005FF0000000000003B010203000000a".toList (by decide) (by decide)

/-- C1, as stated, fails.  The program with the single frame
{led_index = 60, colour = (1, 2, 3), delay = 5} is within the ranges of the wire
format and is written as `003C0102030000005`, but decoding that text as
`execute` does yields no frame: the chunk is dropped after its led_index. -/
theorem out_of_range_frame_not_decoded :
    inWireRange { led_index := 60, r := 1, g := 2, b := 3, delay := 5 }
      ∧ encode outOfRangeProgram = "003C0102030000005".toList
      ∧ framesRead (encode outOfRangeProgram) = []
      ∧ framesRead (encode outOfRangeProgram) ≠ outOfRangeProgram.frames := by
  decide

/-- C1, amended.  For every program whose frames are within the ranges of the
wire format, decoding its text as `execute` does yields the same loop flag and,
in the same order, exactly the frames whose led_index is below `LED_COUNT`; the
loop body runs once per frame of the program. -/
theorem round_trip (p : Program) (h : ∀ f, f ∈ p.frames → inWireRange f) :
    loopFlag (encode p) = p.loop
      ∧ (frameStarts (encode p)).length = p.frames.length
      ∧ framesRead (encode p)
          = p.frames.filter (fun f => decide (f.led_index < LED_COUNT)) := by
  refine ⟨?_, ?_, ?_⟩
  · cases hl : p.loop <;> simp [loopFlag, encode, hl]
  · rw [frameStarts_eq, List.length_map, List.length_range, encode_length]
    omega
  · have hbody : (fun i => (readFrame (encode p) i).toList)
        = (fun i => (fun ch => (readFrame ch 0).toList) (substr (encode p) i 16)) := by
      funext i
      rw [readFrame_chunk]
    have hcode : encode p
        = [if p.loop then '1' else '0'] ++ (p.frames.map encodeFrame).flatten := rfl
    rw [framesRead, hbody]
    have hlen : (p.frames.map encodeFrame).length ≤ (encode p).length := by
      rw [encode_length, List.length_map]
      omega
    have hchunks := forLoop_chunks (fun ch => (readFrame ch 0).toList)
      (p.frames.map encodeFrame)
      (by
        intro ch hch
        obtain ⟨f, _, hf⟩ := List.mem_map.mp hch
        rw [← hf, encodeFrame_length])
      [if p.loop then '1' else '0'] (encode p).length hlen
    rw [← hcode] at hchunks
    have hone : [if p.loop then '1' else '0'].length = 1 := rfl
    rw [hone] at hchunks
    rw [hchunks, flatMap_readFrame_encodeFrame p.frames h]

theorem round_trip_witness :
    encode redPixelProgram = "1000FF00000000000".toList
      ∧ loopFlag (encode redPixelProgram) = redPixelProgram.loop
      ∧ (frameStarts (encode redPixelProgram)).length = redPixelProgram.frames.length
      ∧ framesRead (encode redPixelProgram)
          = redPixelProgram.frames.filter (fun f => decide (f.led_index < LED_COUNT))
      ∧ loopFlag "1000FF00000000000".toList = true
      ∧ framesRead "1000FF00000000000".toList
          = [{ led_index := 0, r := 255, g := 0, b := 0, delay := 0 }] :=
  ⟨by decide, (round_trip redPixelProgram (by decide)).1,
    (round_trip redPixelProgram (by decide)).2.1,
    (round_trip redPixelProgram (by decide)).2.2, by decide, by decide⟩

/-- C11, on the code.  The looping payload `1000FF00000000000` followed by
`000100FF000000000`: however many passes are run, the handler call for the
first payload has not returned and the operations are those of the first
payload alone, pass after pass; the second payload, which on its own stages
LED 1 and flushes, is never handed to the handler. -/
theorem looping_program_is_not_preempted (passes : Nat) :
    receiver_loop ["1000FF00000000000".toList, "000100FF000000000".toList] passes
        = { ops := (List.replicate passes [SinkOp.stage 0 255 0 0, SinkOp.flush]).flatten
            returned := false }
      ∧ SinkOp.stage 1 0 255 0
          ∉ (receiver_loop ["1000FF00000000000".toList, "000100FF000000000".toList] passes).ops
      ∧ receiver_loop ["000100FF000000000".toList] 1
          = { ops := [SinkOp.stage 1 0 255 0, SinkOp.flush], returned := true } := by
  have hrun : receiver_loop ["1000FF00000000000".toList, "000100FF000000000".toList] passes
      = { ops := (List.replicate passes [SinkOp.stage 0 255 0 0, SinkOp.flush]).flatten
          returned := false } := by
    rw [receiver_loop_blocked _ _ (by decide) passes, execute_looping _ (by decide) passes]
    have hpass : onePass "1000FF00000000000".toList
        = [SinkOp.stage 0 255 0 0, SinkOp.flush] := by decide
    rw [hpass]
  refine ⟨hrun, ?_, by decide⟩
  rw [hrun]
  intro hmem
  obtain ⟨l, hl, hx⟩ := List.mem_flatten.mp hmem
  rw [List.eq_of_mem_replicate hl] at hx
  revert hx
  decide

/-- C12.  For a payload whose character 0 is `1`, the first `n` passes of
`execute` perform exactly `n` consecutive copies of the operations of one pass,
each copy holding one flush, its last operation, and `execute` has not returned
after them, whatever `n` is; the payload `1` performs `n` flushes and nothing
else. -/
theorem looping_repeats_the_pass (code : List Char) (h : code.head? = some '1') (n : Nat) :
    (execute code n).ops = (List.replicate n (onePass code)).flatten
      ∧ (execute code n).returned = false
      ∧ (onePass code).count SinkOp.flush = 1
      ∧ (onePass code).getLast? = some SinkOp.flush
      ∧ execute "1".toList n = { ops := List.replicate n SinkOp.flush, returned := false } := by
  have hflag : loopFlag code = true := by
    cases code with
    | nil => simp at h
    | cons c rest =>
      simp only [List.head?_cons, Option.some.injEq] at h
      simp [loopFlag, h]
  rw [execute_looping code hflag n]
  refine ⟨rfl, rfl, onePass_count_flush code, onePass_getLast code, ?_⟩
  rw [execute_looping "1".toList (by decide) n]
  have hpass : onePass "1".toList = [SinkOp.flush] := by decide
  rw [hpass]
  congr 1
  induction n with
  | zero => rfl
  | succ m ih => simp [List.replicate_succ, ih]

theorem looping_repeats_the_pass_witness :
    (execute "1000FF0000000000A".toList 3).ops
        = (List.replicate 3 (onePass "1000FF0000000000A".toList)).flatten
      ∧ (execute "1000FF0000000000A".toList 3).returned = false
      ∧ (onePass "1000FF0000000000A".toList).count SinkOp.flush = 1
      ∧ (onePass "1000FF0000000000A".toList).getLast? = some SinkOp.flush
      ∧ execute "1".toList 3 = { ops := List.replicate 3 SinkOp.flush, returned := false } :=
  looping_repeats_the_pass "1000FF0000000000A".toList (by decide) 3

/-- C13.  After any sequence of registration calls on a fresh server, each of
the two handler lists holds at most `MAX_EVENT_HANDLER_COUNT = 20` entries and
no handler twice.  In such a state a further call returns `Ok(true)` exactly
when the list has fewer than 20 entries and does not hold the listener, and
then appends it at the end; it returns `TOO_MANY_LISTENERS` when the list has
20 entries, whether or not the listener is present, and
`LISTENER_ALREADY_PRESENT` otherwise, leaving the server unchanged on either
error.  The same holds for `add_on_error_listener`. -/
theorem listener_registry_invariant (calls : List UDP.Call) (listener : Nat) :
    (((UDP.Server.after calls).on_message_handlers.length ≤ UDP.MAX_EVENT_HANDLER_COUNT
        ∧ (UDP.Server.after calls).on_message_handlers.Nodup)
      ∧ ((UDP.Server.after calls).on_error_handlers.length ≤ UDP.MAX_EVENT_HANDLER_COUNT
        ∧ (UDP.Server.after calls).on_error_handlers.Nodup))
    ∧ ((((UDP.Server.after calls).add_on_message_listener listener).1 = Except.ok true
          ↔ (UDP.Server.after calls).on_message_handlers.length < 20
            ∧ listener ∉ (UDP.Server.after calls).on_message_handlers)
      ∧ ((UDP.Server.after calls).on_message_handlers.length < 20 →
          listener ∉ (UDP.Server.after calls).on_message_handlers →
          (UDP.Server.after calls).add_on_message_listener listener
            = (Except.ok true,
                { UDP.Server.after calls with
                  on_message_handlers :=
                    (UDP.Server.after calls).on_message_handlers ++ [listener] }))
      ∧ ((UDP.Server.after calls).on_message_handlers.length = 20 →
          (UDP.Server.after calls).add_on_message_listener listener
            = (Except.error UDP.Error.TOO_MANY_LISTENERS, UDP.Server.after calls))
      ∧ ((UDP.Server.after calls).on_message_handlers.length < 20 →
          listener ∈ (UDP.Server.after calls).on_message_handlers →
          (UDP.Server.after calls).add_on_message_listener listener
            = (Except.error UDP.Error.LISTENER_ALREADY_PRESENT, UDP.Server.after calls)))
    ∧ ((((UDP.Server.after calls).add_on_error_listener listener).1 = Except.ok true
          ↔ (UDP.Server.after calls).on_error_handlers.length < 20
            ∧ listener ∉ (UDP.Server.after calls).on_error_handlers)
      ∧ ((UDP.Server.after calls).on_error_handlers.length < 20 →
          listener ∉ (UDP.Server.after calls).on_error_handlers →
          (UDP.Server.after calls).add_on_error_listener listener
            = (Except.ok true,
                { UDP.Server.after calls with
                  on_error_handlers :=
                    (UDP.Server.after calls).on_error_handlers ++ [listener] }))
      ∧ ((UDP.Server.after calls).on_error_handlers.length = 20 →
          (UDP.Server.after calls).add_on_error_listener listener
            = (Except.error UDP.Error.TOO_MANY_LISTENERS, UDP.Server.after calls))
      ∧ ((UDP.Server.after calls).on_error_handlers.length < 20 →
          listener ∈ (UDP.Server.after calls).on_error_handlers →
          (UDP.Server.after calls).add_on_error_listener listener
            = (Except.error UDP.Error.LISTENER_ALREADY_PRESENT, UDP.Server.after calls))) := by
  have hinv := foldl_call_keeps_registry_invariant calls UDP.Server.new
    ⟨⟨by decide, List.nodup_nil⟩, ⟨by decide, List.nodup_nil⟩⟩
  obtain ⟨m1, m2, m3, m4⟩ := add_on_message_listener_cases (UDP.Server.after calls) listener
  obtain ⟨e1, e2, e3, e4⟩ := add_on_error_listener_cases (UDP.Server.after calls) listener
  exact ⟨hinv, ⟨m1, m2, fun h => m3 (by omega), m4⟩, ⟨e1, e2, fun h => e3 (by omega), e4⟩⟩

theorem listener_registry_invariant_witness :
    (UDP.Server.after ((List.range 20).map UDP.Call.add_on_message_listener)).add_on_message_listener 5
        = (Except.error UDP.Error.TOO_MANY_LISTENERS,
            UDP.Server.after ((List.range 20).map UDP.Call.add_on_message_listener))
      ∧ (UDP.Server.after [UDP.Call.add_on_error_listener 7]).add_on_error_listener 7
        = (Except.error UDP.Error.LISTENER_ALREADY_PRESENT,
            UDP.Server.after [UDP.Call.add_on_error_listener 7])
      ∧ (UDP.Server.after [UDP.Call.add_on_message_listener 7]).add_on_message_listener 8
        = (Except.ok true,
            { UDP.Server.after [UDP.Call.add_on_message_listener 7] with
              on_message_handlers :=
                (UDP.Server.after [UDP.Call.add_on_message_listener 7]).on_message_handlers
                  ++ [8] }) :=
  ⟨(listener_registry_invariant ((List.range 20).map UDP.Call.add_on_message_listener)
      5).2.1.2.2.1 (by decide),
    (listener_registry_invariant [UDP.Call.add_on_error_listener 7] 7).2.2.2.2.2
      (by decide) (by decide),
    (listener_registry_invariant [UDP.Call.add_on_message_listener 7] 8).2.1.2.1
      (by decide) (by decide)⟩

/-- C14.  Starting with both flags false, after any sequence of events
delivered to `base_event_handler` the flags `prop_is_connected` and
`prop_is_conn_failed` are not both true.  In the state reached, a
`WIFI_EVENT_STA_DISCONNECTED` event invokes the on_disconnected handlers, and
clears both flags, when the state was connected and not failed; in every other
state it invokes the on_connection_failed handlers and sets
`prop_is_conn_failed`. -/
theorem wifi_connection_state (s : Wifi.State) (events : List Wifi.Event)
    (hconn : s.prop_is_connected = false) (_hfail : s.prop_is_conn_failed = false) :
    ¬ ((s.after events).prop_is_connected = true ∧ (s.after events).prop_is_conn_failed = true)
      ∧ (((s.after events).prop_is_connected = true
            ∧ (s.after events).prop_is_conn_failed = false) →
          Wifi.base_event_handler (s.after events) Wifi.Event.WIFI_EVENT_STA_DISCONNECTED
            = ({ s.after events with prop_is_connected := false, prop_is_conn_failed := false },
                Wifi.invoke Wifi.HandlerList.on_disconnected
                  (s.after events).on_disconnected_handlers))
      ∧ (¬ ((s.after events).prop_is_connected = true
            ∧ (s.after events).prop_is_conn_failed = false) →
          Wifi.base_event_handler (s.after events) Wifi.Event.WIFI_EVENT_STA_DISCONNECTED
            = ({ s.after events with prop_is_connected := false, prop_is_conn_failed := true },
                Wifi.invoke Wifi.HandlerList.on_connection_failed
                  (s.after events).on_connection_failed_handlers))
      ∧ ((Wifi.base_event_handler (s.after events)
              Wifi.Event.WIFI_EVENT_STA_DISCONNECTED).1.prop_is_conn_failed = false
          ↔ ((s.after events).prop_is_connected = true
            ∧ (s.after events).prop_is_conn_failed = false)) := by
  have hinv := foldl_base_event_handler_flags events s (by simp [hconn])
  obtain ⟨h1, h2⟩ := disconnected_cases (s.after events)
  refine ⟨hinv, h1, h2, ?_⟩
  by_cases hc : (s.after events).prop_is_connected = true
      ∧ (s.after events).prop_is_conn_failed = false
  · rw [h1 hc]
    simp [hc]
  · rw [h2 hc]
    simp [hc]

theorem wifi_connection_state_witness :
    ¬ ((Wifi.State.deployed.after
          [Wifi.Event.WIFI_EVENT_STA_START, Wifi.Event.WIFI_EVENT_STA_CONNECTED]).prop_is_connected
          = true
        ∧ (Wifi.State.deployed.after
          [Wifi.Event.WIFI_EVENT_STA_START, Wifi.Event.WIFI_EVENT_STA_CONNECTED]).prop_is_conn_failed
          = true)
      ∧ (Wifi.base_event_handler
          (Wifi.State.deployed.after
            [Wifi.Event.WIFI_EVENT_STA_START, Wifi.Event.WIFI_EVENT_STA_CONNECTED])
          Wifi.Event.WIFI_EVENT_STA_DISCONNECTED).2 = [(Wifi.HandlerList.on_disconnected, 3)]
      ∧ (Wifi.base_event_handler
          (Wifi.State.deployed.after
            [Wifi.Event.WIFI_EVENT_STA_START, Wifi.Event.WIFI_EVENT_STA_DISCONNECTED])
          Wifi.Event.WIFI_EVENT_STA_DISCONNECTED).2
          = [(Wifi.HandlerList.on_connection_failed, 4)] :=
  ⟨(wifi_connection_state Wifi.State.deployed
      [Wifi.Event.WIFI_EVENT_STA_START, Wifi.Event.WIFI_EVENT_STA_CONNECTED] rfl rfl).1,
    by
      rw [(wifi_connection_state Wifi.State.deployed
        [Wifi.Event.WIFI_EVENT_STA_START, Wifi.Event.WIFI_EVENT_STA_CONNECTED] rfl rfl).2.1
        (by decide)]
      decide,
    by
      rw [(wifi_connection_state Wifi.State.deployed
        [Wifi.Event.WIFI_EVENT_STA_START, Wifi.Event.WIFI_EVENT_STA_DISCONNECTED] rfl rfl).2.2.1
        (by decide)]
      decide⟩

end LightLang
